import Mathlib

/-!
Verification development for the gematria repository: a shallow embedding of
the basic-block graph builder (`gematria/granite/graph_builder.cc`), of the
orchestration loop and emitters of
`gematria/datasets/convert_bhive_to_llvm_exegesis_input.cc`, and of
`ParseRawData` (`gematria/io/proto_parser.cc`), together with theorems about
the claims of the specification.

Conventions of the embedding:
  * machine integers are modelled as `Int`/`Nat` (no overflow is reachable in
    the modelled code paths: all counters are far below 2^32);
  * a C++ process abort (`ABSL_LOG(FATAL)`, a failed `ABSL_CHECK`, or an
    out-of-range `std::vector` index) is modelled as `none` of an `Option`;
  * external collaborators (the LLVM disassembler, protobuf parsing, the
    filesystem) are abstracted as function parameters or oracle records.
-/

namespace Gematria

/-! ### Basic-block data model (gematria/basic_block/basic_block.h)

Only the fields read by `BasicBlockGraphBuilder` are modelled; the remaining
fields of the C++ `Instruction` (llvm mnemonic, raw encoding, address, etc.)
never influence the graph builder. The floating-point payload of an
`kFpImmediateValue` operand is likewise never read by the builder and is not
representable in this embedding, so it is dropped. -/

/-- One address tuple of an address operand (`AddressTuple`). The builder
ignores the scaling field, which is kept for fidelity to the struct. -/
structure AddressTuple where
  base_register : String
  index_register : String
  segment_register : String
  displacement : Int
  scale : Nat
deriving DecidableEq

/-- The operand variants (`InstructionOperand` with `OperandType`). -/
inductive InstructionOperand
  | register (register_name : String)
  | immediateValue (value : Int)
  | fpImmediateValue
  | address (address_tuple : AddressTuple)
  | memory (alias_group_id : Nat)
  | unknown
deriving DecidableEq

/-- One decoded instruction, with the fields the graph builder reads. -/
structure Instruction where
  mnemonic : String
  prefixes : List String
  input_operands : List InstructionOperand
  implicit_input_operands : List InstructionOperand
  output_operands : List InstructionOperand
  implicit_output_operands : List InstructionOperand
deriving DecidableEq

/-! ### Graph-builder node and edge types (graph_builder.h) -/

/-- Node types of the basic-block graph (`NodeType`). -/
inductive NodeType
  | kInstruction
  | kRegister
  | kImmediate
  | kFpImmediate
  | kAddressOperand
  | kMemoryOperand
  | kPrefix
deriving DecidableEq

/-- Edge types of the basic-block graph (`EdgeType`). -/
inductive EdgeType
  | kStructuralDependency
  | kInputOperands
  | kOutputOperands
  | kAddressBaseRegister
  | kAddressIndexRegister
  | kAddressSegmentRegister
  | kAddressDisplacement
  | kReverseStructuralDependency
  | kInstructionPrefix
deriving DecidableEq

/-- Node indices are C++ `int`s; `kInvalidNode = -1` is the failure
sentinel. -/
def kInvalidNode : Int := -1

/-- The out-of-vocabulary policy, with the replacement token already resolved
to its index, as stored in the constructed builder
(`out_of_vocabulary_behavior_` together with `replacement_token_`). -/
inductive OutOfVocabularyTokenBehavior
  | kReturnError
  | kReplaceToken (replacement_token : Nat)
deriving DecidableEq

/-- The immutable part of a constructed `BasicBlockGraphBuilder`: the
vocabulary and the resolved distinguished token indices. A token's index is
its position in `node_tokens` (`MakeIndex` dies on duplicates, so positions
and the hash map agree). -/
structure BuilderConfig where
  node_tokens : List String
  immediate_token : Nat
  fp_immediate_token : Nat
  address_token : Nat
  memory_token : Nat
  out_of_vocabulary_behavior : OutOfVocabularyTokenBehavior
deriving DecidableEq

/-- Lookup in the token index (`node_tokens_.find(token)`): the position of
the token in the vocabulary list. -/
def findTokenIndex (node_tokens : List String) (token : String) : Option Nat :=
  node_tokens.indexOf? token

/-- The mutable accumulator state of a `BasicBlockGraphBuilder` (the eight
accumulator arrays and the two per-block scratch maps). -/
structure BuilderState where
  node_types : List NodeType
  node_features : List Nat
  edge_senders : List Int
  edge_receivers : List Int
  edge_types : List EdgeType
  num_nodes_per_block : List Int
  num_edges_per_block : List Int
  global_features : List (List Int)
  register_nodes : List (String × Int)
  alias_group_nodes : List (Nat × Int)
deriving DecidableEq

/-- The state of a freshly constructed builder: everything empty. -/
def initialState : BuilderState :=
  ⟨[], [], [], [], [], [], [], [], [], []⟩

/-- Accessor `num_nodes()` (graph_builder.h): the size of `node_types_`. -/
def numNodes (st : BuilderState) : Int := st.node_types.length

/-- Accessor `num_edges()` (graph_builder.h): the size of `edge_senders_`. -/
def numEdges (st : BuilderState) : Int := st.edge_senders.length

/-- Accessor `num_graphs()` (graph_builder.h): the size of
`num_nodes_per_block_`. -/
def numGraphs (st : BuilderState) : Nat := st.num_nodes_per_block.length

/-! ### Scratch-map primitives

`register_nodes_` and `alias_group_nodes_` are `absl::flat_hash_map`s; the
builder only ever looks up, inserts and overwrites single keys, so an
association list with lookup-first-match and in-place overwrite is a faithful
model. -/

/-- Lookup of a key in a scratch map. -/
def mapLookup {κ : Type} [DecidableEq κ] : List (κ × Int) → κ → Option Int
  | [], _ => none
  | p :: rest, k => if p.1 = k then some p.2 else mapLookup rest k

/-- Overwrite (or add) the binding of a key (`map[key] = value`). -/
def mapInsert {κ : Type} [DecidableEq κ] : List (κ × Int) → κ → Int → List (κ × Int)
  | [], k, v => [(k, v)]
  | p :: rest, k, v => if p.1 = k then (k, v) :: rest else p :: mapInsert rest k v

/-- The `LookupOrInsert` helper of graph_builder.cc: returns the current value
of the key, inserting `default_value` first when the key is absent. -/
def lookupOrInsert {κ : Type} [DecidableEq κ] (m : List (κ × Int)) (k : κ)
    (default_value : Int) : Int × List (κ × Int) :=
  match mapLookup m k with
  | some v => (v, m)
  | none => (default_value, (k, default_value) :: m)

/-! ### Graph-builder operations (graph_builder.cc) -/

/-- `AddNode(NodeType, TokenIndex)`: appends a node and returns its index. -/
def addNode (st : BuilderState) (node_type : NodeType) (token_index : Nat) :
    Int × BuilderState :=
  (numNodes st,
   { st with
      node_types := st.node_types ++ [node_type],
      node_features := st.node_features ++ [token_index] })

/-- `AddNode(NodeType, absl::string_view)`: looks the token up in the
vocabulary and applies the out-of-vocabulary policy; `kInvalidNode` signals
failure under `kReturnError`. -/
def addNodeTok (cfg : BuilderConfig) (st : BuilderState) (node_type : NodeType)
    (token : String) : Int × BuilderState :=
  match findTokenIndex cfg.node_tokens token with
  | some token_index => addNode st node_type token_index
  | none =>
    match cfg.out_of_vocabulary_behavior with
    | .kReturnError => (kInvalidNode, st)
    | .kReplaceToken replacement_token => addNode st node_type replacement_token

/-- `AddEdge`: appends an edge. The `ABSL_CHECK`s on the endpoints are
modelled as `none` (process abort) when violated. -/
def addEdge (st : BuilderState) (edge_type : EdgeType) (sender receiver : Int) :
    Option BuilderState :=
  if 0 ≤ sender ∧ sender < numNodes st ∧ 0 ≤ receiver ∧ receiver < numNodes st then
    some { st with
            edge_senders := st.edge_senders ++ [sender],
            edge_receivers := st.edge_receivers ++ [receiver],
            edge_types := st.edge_types ++ [edge_type] }
  else none

/-- Sequencing of the `if (!Add...(...)) return false;` pattern: a fatal
result or a `false` result propagates, a `true` result continues. -/
def bindStep (r : Option (Bool × BuilderState))
    (f : BuilderState → Option (Bool × BuilderState)) : Option (Bool × BuilderState) :=
  match r with
  | none => none
  | some (false, st) => some (false, st)
  | some (true, st) => f st

/-- `AddDependencyOnRegister`: resolves the register against the per-block
`register_nodes_` map, adding a register node when required, and adds the
dependency edge. -/
def addDependencyOnRegister (cfg : BuilderConfig) (st : BuilderState)
    (dependent_node : Int) (register_name : String) (edge_type : EdgeType) :
    Option (Bool × BuilderState) :=
  let li := lookupOrInsert st.register_nodes register_name kInvalidNode
  let st1 := { st with register_nodes := li.2 }
  if li.1 = kInvalidNode then
    let an := addNodeTok cfg st1 NodeType.kRegister register_name
    let st2 := { an.2 with register_nodes := mapInsert an.2.register_nodes register_name an.1 }
    if an.1 = kInvalidNode then some (false, st2)
    else
      match addEdge st2 edge_type an.1 dependent_node with
      | none => none
      | some st3 => some (true, st3)
  else
    match addEdge st1 edge_type li.1 dependent_node with
    | none => none
    | some st3 => some (true, st3)

/-- `AddInputOperand`: dispatch over the operand variant for an input
operand. The `kUnknown` case is `ABSL_LOG(FATAL)` in the source. -/
def addInputOperand (cfg : BuilderConfig) (st : BuilderState)
    (instruction_node : Int) (operand : InstructionOperand) :
    Option (Bool × BuilderState) :=
  if ¬(0 ≤ instruction_node ∧ instruction_node < numNodes st) then none
  else
    match operand with
    | .register register_name =>
        addDependencyOnRegister cfg st instruction_node register_name
          EdgeType.kInputOperands
    | .immediateValue _ =>
        let an := addNode st NodeType.kImmediate cfg.immediate_token
        match addEdge an.2 EdgeType.kInputOperands an.1 instruction_node with
        | none => none
        | some st2 => some (true, st2)
    | .fpImmediateValue =>
        let an := addNode st NodeType.kFpImmediate cfg.fp_immediate_token
        match addEdge an.2 EdgeType.kInputOperands an.1 instruction_node with
        | none => none
        | some st2 => some (true, st2)
    | .address address_tuple =>
        let an := addNode st NodeType.kAddressOperand cfg.address_token
        bindStep
          (if address_tuple.base_register = "" then some (true, an.2)
           else addDependencyOnRegister cfg an.2 an.1 address_tuple.base_register
                  EdgeType.kAddressBaseRegister) fun stb =>
        bindStep
          (if address_tuple.index_register = "" then some (true, stb)
           else addDependencyOnRegister cfg stb an.1 address_tuple.index_register
                  EdgeType.kAddressIndexRegister) fun sti =>
        bindStep
          (if address_tuple.segment_register = "" then some (true, sti)
           else addDependencyOnRegister cfg sti an.1 address_tuple.segment_register
                  EdgeType.kAddressSegmentRegister) fun sts =>
        match
          (if address_tuple.displacement ≠ 0 then
             let di := addNode sts NodeType.kImmediate cfg.immediate_token
             addEdge di.2 EdgeType.kAddressDisplacement di.1 an.1
           else some sts) with
        | none => none
        | some std =>
          match addEdge std EdgeType.kInputOperands an.1 instruction_node with
          | none => none
          | some ste => some (true, ste)
    | .memory alias_group_id =>
        let li := lookupOrInsert st.alias_group_nodes alias_group_id kInvalidNode
        let st1 := { st with alias_group_nodes := li.2 }
        if li.1 = kInvalidNode then
          let an := addNode st1 NodeType.kMemoryOperand cfg.memory_token
          let st2 := { an.2 with
            alias_group_nodes := mapInsert an.2.alias_group_nodes alias_group_id an.1 }
          match addEdge st2 EdgeType.kInputOperands an.1 instruction_node with
          | none => none
          | some st3 => some (true, st3)
        else
          match addEdge st1 EdgeType.kInputOperands li.1 instruction_node with
          | none => none
          | some st3 => some (true, st3)
    | .unknown => none

/-- `AddOutputOperand`: dispatch over the operand variant for an output
operand. Immediates and address expressions as outputs, and `kUnknown`, are
`ABSL_LOG(FATAL)` in the source. -/
def addOutputOperand (cfg : BuilderConfig) (st : BuilderState)
    (instruction_node : Int) (operand : InstructionOperand) :
    Option (Bool × BuilderState) :=
  if ¬(0 ≤ instruction_node ∧ instruction_node < numNodes st) then none
  else
    match operand with
    | .register register_name =>
        let an := addNodeTok cfg st NodeType.kRegister register_name
        if an.1 = kInvalidNode then some (false, an.2)
        else
          match addEdge an.2 EdgeType.kOutputOperands instruction_node an.1 with
          | none => none
          | some st2 =>
            some (true, { st2 with
              register_nodes := mapInsert st2.register_nodes register_name an.1 })
    | .immediateValue _ => none
    | .fpImmediateValue => none
    | .address _ => none
    | .memory alias_group_id =>
        let an := addNode st NodeType.kMemoryOperand cfg.memory_token
        let st1 := { an.2 with
          alias_group_nodes := mapInsert an.2.alias_group_nodes alias_group_id an.1 }
        match addEdge st1 EdgeType.kOutputOperands instruction_node an.1 with
        | none => none
        | some st2 => some (true, st2)
    | .unknown => none

/-- The loop over one operand list calling `AddInputOperand`. -/
def addInputOperandList (cfg : BuilderConfig) (instruction_node : Int) :
    BuilderState → List InstructionOperand → Option (Bool × BuilderState)
  | st, [] => some (true, st)
  | st, operand :: rest =>
      bindStep (addInputOperand cfg st instruction_node operand) fun st' =>
        addInputOperandList cfg instruction_node st' rest

/-- The loop over one operand list calling `AddOutputOperand`. -/
def addOutputOperandList (cfg : BuilderConfig) (instruction_node : Int) :
    BuilderState → List InstructionOperand → Option (Bool × BuilderState)
  | st, [] => some (true, st)
  | st, operand :: rest =>
      bindStep (addOutputOperand cfg st instruction_node operand) fun st' =>
        addOutputOperandList cfg instruction_node st' rest

/-- The loop over an instruction's prefixes: one `kPrefix` node and one
`kInstructionPrefix` edge per prefix string. -/
def addPrefixList (cfg : BuilderConfig) (instruction_node : Int) :
    BuilderState → List String → Option (Bool × BuilderState)
  | st, [] => some (true, st)
  | st, pfx :: rest =>
      let an := addNodeTok cfg st NodeType.kPrefix pfx
      if an.1 = kInvalidNode then some (false, an.2)
      else
        match addEdge an.2 EdgeType.kInstructionPrefix an.1 instruction_node with
        | none => none
        | some st2 => addPrefixList cfg instruction_node st2 rest

/-- The main loop of `AddBasicBlockFromInstructions` over the instruction
list, carrying the node index of the previous instruction. -/
def addInstructionList (cfg : BuilderConfig) :
    BuilderState → Int → List Instruction → Option (Bool × BuilderState)
  | st, _, [] => some (true, st)
  | st, previous_instruction_node, instruction :: rest =>
      let an := addNodeTok cfg st NodeType.kInstruction instruction.mnemonic
      if an.1 = kInvalidNode then some (false, an.2)
      else
        bindStep (addPrefixList cfg an.1 an.2 instruction.prefixes) fun st2 =>
        bindStep
          (if 0 ≤ previous_instruction_node then
             match addEdge st2 EdgeType.kStructuralDependency
                     previous_instruction_node an.1 with
             | none => none
             | some st3 => some (true, st3)
           else some (true, st2)) fun st3 =>
        bindStep (addInputOperandList cfg an.1 st3 instruction.input_operands) fun st4 =>
        bindStep (addInputOperandList cfg an.1 st4 instruction.implicit_input_operands)
          fun st5 =>
        bindStep (addOutputOperandList cfg an.1 st5 instruction.output_operands) fun st6 =>
        bindStep (addOutputOperandList cfg an.1 st6 instruction.implicit_output_operands)
          fun st7 =>
        addInstructionList cfg st7 an.1 rest

/-- One `GEMATRIA_CHECK_AND_RESIZE` of the transaction rollback: aborts when
the array shrank below its snapshot size, otherwise resizes (truncates) back
to the snapshot size. -/
def rollbackResize {α : Type} (original_size : Nat) (l : List α) : Option (List α) :=
  if original_size ≤ l.length then some (l.take original_size) else none

/-- One increment `++global_features[t]`; an out-of-range index is undefined
behaviour in the source and is modelled as `none`. -/
def incAt : List Int → Nat → Option (List Int)
  | [], _ => none
  | x :: xs, 0 => some ((x + 1) :: xs)
  | x :: xs, n + 1 =>
      match incAt xs n with
      | none => none
      | some ys => some (x :: ys)

/-- The loop filling the per-block `global_features` histogram from the token
indices of the nodes added for the block. -/
def accumulateGlobalFeatures : List Int → List Nat → Option (List Int)
  | gf, [] => some gf
  | gf, t :: ts =>
      match incAt gf t with
      | none => none
      | some gf' => accumulateGlobalFeatures gf' ts

/-- `AddBasicBlockFromInstructions`: clears the per-block scratch maps, runs
the instruction loop, and either commits (appending the per-block histogram
and node/edge counts) or rolls every accumulator back to its snapshot size.
The snapshot of the `edge_types_` size is taken from `edge_receivers_.size()`,
mirroring graph_builder.cc line 114. -/
def addBasicBlockFromInstructions (cfg : BuilderConfig) (st : BuilderState)
    (instructions : List Instruction) : Option (Bool × BuilderState) :=
  let prev_num_nodes_per_block_size := st.num_nodes_per_block.length
  let prev_num_edges_per_block_size := st.num_edges_per_block.length
  let prev_node_types_size := st.node_types.length
  let prev_node_features_size := st.node_features.length
  let prev_edge_senders_size := st.edge_senders.length
  let prev_edge_receivers_size := st.edge_receivers.length
  let prev_edge_types_size := st.edge_receivers.length
  let prev_global_features_size := st.global_features.length
  let st0 := { st with register_nodes := [], alias_group_nodes := [] }
  let prev_num_nodes := numNodes st0
  let prev_num_edges := numEdges st0
  match addInstructionList cfg st0 kInvalidNode instructions with
  | none => none
  | some (false, st1) =>
      match rollbackResize prev_num_nodes_per_block_size st1.num_nodes_per_block,
            rollbackResize prev_num_edges_per_block_size st1.num_edges_per_block,
            rollbackResize prev_node_types_size st1.node_types,
            rollbackResize prev_node_features_size st1.node_features,
            rollbackResize prev_edge_senders_size st1.edge_senders,
            rollbackResize prev_edge_receivers_size st1.edge_receivers,
            rollbackResize prev_edge_types_size st1.edge_types,
            rollbackResize prev_global_features_size st1.global_features with
      | some nnpb, some nepb, some nt, some nf, some es, some er, some et, some gf =>
          some (false, { st1 with
            num_nodes_per_block := nnpb, num_edges_per_block := nepb,
            node_types := nt, node_features := nf, edge_senders := es,
            edge_receivers := er, edge_types := et, global_features := gf })
      | _, _, _, _, _, _, _, _ => none
  | some (true, st1) =>
      match accumulateGlobalFeatures (List.replicate cfg.node_tokens.length 0)
              (st1.node_features.drop prev_node_types_size) with
      | none => none
      | some gf =>
          some (true, { st1 with
            global_features := st1.global_features ++ [gf],
            num_nodes_per_block :=
              st1.num_nodes_per_block ++ [numNodes st1 - prev_num_nodes],
            num_edges_per_block :=
              st1.num_edges_per_block ++ [numEdges st1 - prev_num_edges] })

/-- `Reset()`: clears the eight accumulator arrays; the per-block scratch maps
are untouched (they are cleared at the start of each add). -/
def reset (st : BuilderState) : BuilderState :=
  { st with
     node_types := [], node_features := [],
     edge_senders := [], edge_receivers := [], edge_types := [],
     num_nodes_per_block := [], num_edges_per_block := [],
     global_features := [] }

/-! ### Reachability of builder states

`Reachable` is the claim quantifier "after every sequence of successful
`AddBasicBlockFromInstructions` calls, starting from a fresh or reset
builder": a reset builder has empty accumulators but may keep stale scratch
maps, so the base case allows arbitrary scratch maps. `ReachableFull` is
every state an actual builder object can be in between public calls: it also
closes under failed adds and under `Reset()`. -/

/-- States reachable by successful adds from a fresh or reset builder. -/
inductive Reachable (cfg : BuilderConfig) : BuilderState → Prop
  | base (register_nodes : List (String × Int)) (alias_group_nodes : List (Nat × Int)) :
      Reachable cfg { initialState with
        register_nodes := register_nodes, alias_group_nodes := alias_group_nodes }
  | step {st st' : BuilderState} {instructions : List Instruction} :
      Reachable cfg st →
      addBasicBlockFromInstructions cfg st instructions = some (true, st') →
      Reachable cfg st'

/-- States reachable by successful adds of non-empty instruction sequences
from a fresh or reset builder. -/
inductive ReachableNE (cfg : BuilderConfig) : BuilderState → Prop
  | base (register_nodes : List (String × Int)) (alias_group_nodes : List (Nat × Int)) :
      ReachableNE cfg { initialState with
        register_nodes := register_nodes, alias_group_nodes := alias_group_nodes }
  | step {st st' : BuilderState} {instructions : List Instruction} :
      ReachableNE cfg st →
      instructions ≠ [] →
      addBasicBlockFromInstructions cfg st instructions = some (true, st') →
      ReachableNE cfg st'

/-- Every state a `BasicBlockGraphBuilder` object can occupy between public
calls: closed under adds with either outcome and under `Reset()`. -/
inductive ReachableFull (cfg : BuilderConfig) : BuilderState → Prop
  | base : ReachableFull cfg initialState
  | step {st st' : BuilderState} {instructions : List Instruction} {b : Bool} :
      ReachableFull cfg st →
      addBasicBlockFromInstructions cfg st instructions = some (b, st') →
      ReachableFull cfg st'
  | reset_step {st : BuilderState} :
      ReachableFull cfg st → ReachableFull cfg (reset st)

/-! ### DeltaBlockIndex (graph_builder.cc lines 421-440) -/

/-- The body of the `while (node >= block_end && block < num_graphs())` loop
of `DeltaBlockIndex`, written with an explicit iteration budget so that it is
structurally recursive; `advanceBlock` below supplies a budget that is always
sufficient, so the `none`-on-zero-budget case is unreachable. An out-of-range
access to `num_nodes_per_block_` (undefined behaviour in the source) is
`none`. -/
def advanceBlockAux (num_nodes_per_block : List Int) (node : Int) :
    Nat → Int → Int → Option (Int × Int)
  | 0, block, block_end =>
    if block_end ≤ node ∧ block < (num_nodes_per_block.length : Int) then none
    else some (block, block_end)
  | fuel + 1, block, block_end =>
    if block_end ≤ node ∧ block < (num_nodes_per_block.length : Int) then
      match num_nodes_per_block.get? (block + 1).toNat with
      | none => none
      | some v =>
        advanceBlockAux num_nodes_per_block node fuel (block + 1) (block_end + v)
    else some (block, block_end)

/-- The inner while loop of `DeltaBlockIndex`, advancing `block` and
`block_end` until the current node lies before `block_end`. -/
def advanceBlock (num_nodes_per_block : List Int) (node block block_end : Int) :
    Option (Int × Int) :=
  advanceBlockAux num_nodes_per_block node
    (((num_nodes_per_block.length : Int) - block).toNat + 1) block block_end

/-- The `for` loop of `DeltaBlockIndex` over all nodes, collecting the block
index of every `kInstruction` node and returning the final `block` and
`block_end`. -/
def dbiGo (num_nodes_per_block : List Int) :
    List NodeType → Int → Int → Int → Option (List Int × Int × Int)
  | [], _, block, block_end => some ([], block, block_end)
  | nt :: rest, node, block, block_end =>
    if nt = NodeType.kInstruction then
      match advanceBlock num_nodes_per_block node block block_end with
      | none => none
      | some (block', block_end') =>
        match dbiGo num_nodes_per_block rest (node + 1) block' block_end' with
        | none => none
        | some (tail, bf, ef) => some (block' :: tail, bf, ef)
    else dbiGo num_nodes_per_block rest (node + 1) block block_end

/-- `DeltaBlockIndex()`: the per-instruction-node block indices. The three
final `ABSL_CHECK_EQ`s are modelled as `none` when violated. -/
def deltaBlockIndex (st : BuilderState) : Option (List Int) :=
  match dbiGo st.num_nodes_per_block st.node_types 0 (-1) 0 with
  | none => none
  | some (delta_block_index, block, block_end) =>
    if block = (numGraphs st : Int) - 1 ∧ block_end = numNodes st ∧
       delta_block_index.length = st.node_types.count NodeType.kInstruction
    then some delta_block_index else none

/-- Written from the claim's words: for each instruction node in global index
order, the zero-based index of the block the node belongs to. `segs` is the
per-block decomposition of `node_types`; block `g` (starting at `g0`)
contributes one entry `g` per `kInstruction` node it contains. -/
def specDBI (g0 : Int) : List (List NodeType) → List Int
  | [] => []
  | seg :: rest =>
      List.replicate (seg.count NodeType.kInstruction) g0 ++ specDBI (g0 + 1) rest

/-! ### The converter orchestration loop
(convert_bhive_to_llvm_exegesis_input.cc, `main`)

The loop is modelled as a pure state machine over an abstract per-line oracle:
parsing, disassembly, annotation and filesystem writes are external effects,
so their outcomes are inputs of the model. Observable output (file writes,
skips, the end-of-run report) is modelled as a trace of events; stderr
diagnostics and the `report_progress_every` progress line carry no
information used by any claim and are not modelled. -/

/-- The command-line flags read by the loop (after the start-up validation
that `bhive_csv` is set and `blocks_per_json_file > 0`). `asmEnabled` and
`jsonEnabled` are `!asm_output_dir.empty()` and `!json_output_dir.empty()`. -/
structure ConverterFlags where
  asmEnabled : Bool
  jsonEnabled : Bool
  blocks_per_json_file : Nat
  max_bb_count : Nat
  skip_no_loop_register : Bool
deriving DecidableEq

/-- The oracle for one input CSV line: whether the line contains a comma,
whether `AnnotateBasicBlock` succeeds (hex parse + disassembly + address
finder), whether the annotated block has a loop register, and whether the
per-block ASM file write succeeds. -/
structure LineOutcome where
  hasComma : Bool
  annotationOk : Bool
  hasLoopRegister : Bool
  asmWriteOk : Bool
deriving DecidableEq

/-- Observable events of a run. -/
inductive RunEvent
  | asmWrite (file_counter : Nat) (ok : Bool)
  | jsonFlush (file_number : Nat) (size : Nat) (ok : Bool)
  | skipNoLoopRegister
  | reportLoopRegisterFailures (count : Nat)
deriving DecidableEq

/-- The result of a run: the process exit code, the event trace, and the
final values of the loop counters (`annotatedBlocks` counts the lines for
which `AnnotateBasicBlock` returned successfully). -/
structure RunResult where
  exitCode : Nat
  events : List RunEvent
  file_counter : Nat
  loop_register_failures : Nat
  annotatedBlocks : Nat
deriving DecidableEq

/-- The code after the input loop: the final partial JSON flush (lines
459-464) followed by the loop-register skip report (lines 466-467). -/
def runFinale (flags : ConverterFlags) (jsonOk : Nat → Bool)
    (file_counter loop_register_failures annotated snippets : Nat)
    (events : List RunEvent) : RunResult :=
  if flags.jsonEnabled ∧ snippets ≠ 0 then
    let json_file_number := file_counter / flags.blocks_per_json_file
    let ok := jsonOk json_file_number
    let events1 := events ++ [RunEvent.jsonFlush json_file_number snippets ok]
    if ok then
      ⟨0, events1 ++ [RunEvent.reportLoopRegisterFailures loop_register_failures],
       file_counter, loop_register_failures, annotated⟩
    else ⟨4, events1, file_counter, loop_register_failures, annotated⟩
  else
    ⟨0, events ++ [RunEvent.reportLoopRegisterFailures loop_register_failures],
     file_counter, loop_register_failures, annotated⟩

/-- The per-line input loop (lines 399-457). `snippets` is the size of
`processed_snippets`; `jsonOk n` is whether writing `<n>.json` succeeds. -/
def runLoop (flags : ConverterFlags) (jsonOk : Nat → Bool) :
    List LineOutcome → Nat → Nat → Nat → Nat → List RunEvent → RunResult
  | [], file_counter, fails, annotated, snippets, events =>
      runFinale flags jsonOk file_counter fails annotated snippets events
  | line :: rest, file_counter, fails, annotated, snippets, events =>
      if flags.max_bb_count ≤ file_counter then
        runFinale flags jsonOk file_counter fails annotated snippets events
      else if ¬line.hasComma then ⟨2, events, file_counter, fails, annotated⟩
      else if ¬line.annotationOk then ⟨2, events, file_counter, fails, annotated⟩
      else if ¬line.hasLoopRegister ∧ flags.skip_no_loop_register then
        runLoop flags jsonOk rest file_counter (fails + 1) (annotated + 1) snippets
          (events ++ [RunEvent.skipNoLoopRegister])
      else
        let events1 :=
          if flags.asmEnabled then events ++ [RunEvent.asmWrite file_counter line.asmWriteOk]
          else events
        if flags.asmEnabled ∧ ¬line.asmWriteOk then
          ⟨2, events1, file_counter, fails, annotated + 1⟩
        else if flags.jsonEnabled then
          if (file_counter + 1) % flags.blocks_per_json_file = 0 then
            let json_file_number := file_counter / flags.blocks_per_json_file
            let ok := jsonOk json_file_number
            let events2 := events1 ++ [RunEvent.jsonFlush json_file_number (snippets + 1) ok]
            if ok then
              runLoop flags jsonOk rest (file_counter + 1) fails (annotated + 1) 0 events2
            else ⟨4, events2, file_counter, fails, annotated + 1⟩
          else
            runLoop flags jsonOk rest (file_counter + 1) fails (annotated + 1)
              (snippets + 1) events1
        else runLoop flags jsonOk rest (file_counter + 1) fails (annotated + 1)
               snippets events1

/-- A whole run of `main`'s input loop from the initial counters. -/
def run (flags : ConverterFlags) (jsonOk : Nat → Bool) (lines : List LineOutcome) :
    RunResult :=
  runLoop flags jsonOk lines 0 0 0 0 []

/-- The JSON flush events of a trace, as (file number, batch size) pairs in
emission order. -/
def jsonFlushes (events : List RunEvent) : List (Nat × Nat) :=
  events.filterMap fun e =>
    match e with
    | RunEvent.jsonFlush n s _ => some (n, s)
    | _ => none

/-! ### The ASM emitter (`WriteAsmOutput`, lines 240-325)

Register identifiers are LLVM's opaque unsigned ids; the sixteen canonical
general-purpose registers are the ones `WriteAsmOutput` compares against, and
every other id (of whatever register class) is modelled by `other`. The
`reg_info.getName` oracle and the hex formatting of `ConvertHexToString` are
external and abstracted away (values stay numeric). -/

/-- The sixteen canonical general-purpose registers RAX..R15. -/
inductive GPRegister
  | RAX | RCX | RDX | RBX | RSI | RDI | RSP | RBP
  | R8 | R9 | R10 | R11 | R12 | R13 | R14 | R15
deriving DecidableEq

/-- An LLVM register id: one of the sixteen canonical GPRs, or any other
register (identified by an opaque number). -/
inductive RegisterId
  | gpr (g : GPRegister)
  | other (id : Nat)
deriving DecidableEq

/-- `kInitialRegVal` (line 46). -/
def kInitialRegVal : Int := 0x12345600

/-- The `initial_regs` register snapshot of `AccessedAddrs`
(find_accessed_addrs.h; the fields are those read by `WriteAsmOutput`). -/
structure InitialRegs where
  rax : Int
  rcx : Int
  rdx : Int
  rbx : Int
  rsi : Int
  rdi : Int
  rsp : Int
  rbp : Int
  r8 : Int
  r9 : Int
  r10 : Int
  r11 : Int
  r12 : Int
  r13 : Int
  r14 : Int
  r15 : Int
deriving DecidableEq

/-- `AccessedAddrs` as consumed by the emitters. -/
structure AccessedAddrs where
  block_size : Int
  accessed_blocks : List Int
  initial_regs : InitialRegs
deriving DecidableEq

/-- `AnnotatedBlock` as consumed by the emitters (`basic_block_proto` is
reduced to its per-instruction assembly strings, the only part the ASM
emitter reads). -/
structure AnnotatedBlock where
  accessed_addrs : AccessedAddrs
  assembly_lines : List String
  used_registers : List RegisterId
  loop_register : Option RegisterId
deriving DecidableEq

/-- One line of the emitted ASM file. -/
inductive AsmLine
  | defreg (reg_name : String) (value : Int)
  | memDefine (mem_name : String) (size : Int) (value_str : String)
  | memmap (mem_name : String) (address : Int)
  | loopreg (reg_name : String)
  | asm (text : String)
deriving DecidableEq

/-- The register-value selection chain of `WriteAsmOutput` (lines 262-295):
`register_value` starts at `kInitialRegVal` and is overwritten when the id
matches one of the sixteen canonical GPRs. -/
def asmRegisterValue (accessed_addrs : AccessedAddrs) (register_id : RegisterId) : Int :=
  if register_id = RegisterId.gpr GPRegister.RAX then accessed_addrs.initial_regs.rax
  else if register_id = RegisterId.gpr GPRegister.RCX then accessed_addrs.initial_regs.rcx
  else if register_id = RegisterId.gpr GPRegister.RDX then accessed_addrs.initial_regs.rdx
  else if register_id = RegisterId.gpr GPRegister.RBX then accessed_addrs.initial_regs.rbx
  else if register_id = RegisterId.gpr GPRegister.RSI then accessed_addrs.initial_regs.rsi
  else if register_id = RegisterId.gpr GPRegister.RDI then accessed_addrs.initial_regs.rdi
  else if register_id = RegisterId.gpr GPRegister.RSP then accessed_addrs.initial_regs.rsp
  else if register_id = RegisterId.gpr GPRegister.RBP then accessed_addrs.initial_regs.rbp
  else if register_id = RegisterId.gpr GPRegister.R8 then accessed_addrs.initial_regs.r8
  else if register_id = RegisterId.gpr GPRegister.R9 then accessed_addrs.initial_regs.r9
  else if register_id = RegisterId.gpr GPRegister.R10 then accessed_addrs.initial_regs.r10
  else if register_id = RegisterId.gpr GPRegister.R11 then accessed_addrs.initial_regs.r11
  else if register_id = RegisterId.gpr GPRegister.R12 then accessed_addrs.initial_regs.r12
  else if register_id = RegisterId.gpr GPRegister.R13 then accessed_addrs.initial_regs.r13
  else if register_id = RegisterId.gpr GPRegister.R14 then accessed_addrs.initial_regs.r14
  else if register_id = RegisterId.gpr GPRegister.R15 then accessed_addrs.initial_regs.r15
  else kInitialRegVal

/-- The lines `WriteAsmOutput` writes for a block in the successful case:
DEFREG lines, the MEM-DEF line when any address was accessed, the MEM-MAP
lines, the loop-register line when present, and the assembly text.
`reg_name` is the external `reg_info.getName` oracle and
`initial_mem_val_str` the zero-padded memory value string computed in
`main`. -/
def writeAsmOutput (reg_name : RegisterId → String) (initial_mem_val_str : String)
    (ab : AnnotatedBlock) : List AsmLine :=
  (ab.used_registers.map fun register_id =>
     AsmLine.defreg (reg_name register_id) (asmRegisterValue ab.accessed_addrs register_id))
  ++ (if ab.accessed_addrs.accessed_blocks.length > 0 then
        [AsmLine.memDefine "MEM" ab.accessed_addrs.block_size initial_mem_val_str]
      else [])
  ++ ab.accessed_addrs.accessed_blocks.map (AsmLine.memmap "MEM")
  ++ (match ab.loop_register with
      | some r => [AsmLine.loopreg (reg_name r)]
      | none => [])
  ++ ab.assembly_lines.map AsmLine.asm

/-- Written from the claim's words: a GPR's DEFREG value is the corresponding
entry of `initial_regs`; every other register's DEFREG value is
`kInitialRegVal`. -/
def claimRegisterValue (initial_regs : InitialRegs) (register_id : RegisterId) : Int :=
  match register_id with
  | RegisterId.gpr GPRegister.RAX => initial_regs.rax
  | RegisterId.gpr GPRegister.RCX => initial_regs.rcx
  | RegisterId.gpr GPRegister.RDX => initial_regs.rdx
  | RegisterId.gpr GPRegister.RBX => initial_regs.rbx
  | RegisterId.gpr GPRegister.RSI => initial_regs.rsi
  | RegisterId.gpr GPRegister.RDI => initial_regs.rdi
  | RegisterId.gpr GPRegister.RSP => initial_regs.rsp
  | RegisterId.gpr GPRegister.RBP => initial_regs.rbp
  | RegisterId.gpr GPRegister.R8 => initial_regs.r8
  | RegisterId.gpr GPRegister.R9 => initial_regs.r9
  | RegisterId.gpr GPRegister.R10 => initial_regs.r10
  | RegisterId.gpr GPRegister.R11 => initial_regs.r11
  | RegisterId.gpr GPRegister.R12 => initial_regs.r12
  | RegisterId.gpr GPRegister.R13 => initial_regs.r13
  | RegisterId.gpr GPRegister.R14 => initial_regs.r14
  | RegisterId.gpr GPRegister.R15 => initial_regs.r15
  | RegisterId.other _ => kInitialRegVal

/-! ### ParseRawData (gematria/io/proto_parser.cc)

`BasicBlockWithThroughputProto` and its `ParseFromString` are external
protobuf machinery: the element type and the parsing function are abstracted
as parameters. -/

/-- The loop body of `ParseRawData`: `Output.push_back(parse(InputString))`
for each input string. -/
def parseRawDataGo {α : Type} (parseFromString : String → α) :
    List α → List String → List α
  | output, [] => output
  | output, s :: rest => parseRawDataGo parseFromString (output ++ [parseFromString s]) rest

/-- `ParseRawData`: one parsed proto per input string, in input order. -/
def parseRawData {α : Type} (parseFromString : String → α) (input : List String) :
    List α :=
  parseRawDataGo parseFromString [] input

/-- An event recording a failed JSON batch-file write. -/
def isFailedJsonFlush : RunEvent → Bool
  | RunEvent.jsonFlush _ _ false => true
  | _ => false

/-- An event recording a failed per-block ASM file write. -/
def isFailedAsmWrite : RunEvent → Bool
  | RunEvent.asmWrite _ false => true
  | _ => false

/-- The (file number, size) pairs of `k` full JSON batches, numbered 0..k-1. -/
def fullFlushes (blocks_per_json_file k : Nat) : List (Nat × Nat) :=
  (List.range k).map fun i => (i, blocks_per_json_file)

/-- The shape of the JSON flush trace of any run: some number of full batches
numbered sequentially from 0, optionally followed by one non-empty partial
batch with the next sequential number. -/
def FlushShape (blocks_per_json_file : Nat) (fl : List (Nat × Nat)) : Prop :=
  ∃ k, fl = fullFlushes blocks_per_json_file k ∨
    ∃ s, 0 < s ∧ s < blocks_per_json_file ∧
      fl = fullFlushes blocks_per_json_file k ++ [(k, s)]

/-- The exit-code discipline of a run result: exit code 4 exactly when a JSON
batch write failed, and exit code 2 whenever a per-block ASM write failed. -/
def ExitCodeSpec (r : RunResult) : Prop :=
  (r.exitCode = 4 ↔ ∃ e ∈ r.events, isFailedJsonFlush e = true) ∧
  ((∃ e ∈ r.events, isFailedAsmWrite e = true) → r.exitCode = 2)

/-! ### Invariants of the graph builder used by the proofs -/

/-- How one builder state extends another during an add: each of the five
node/edge arrays is extended by appending (with the node arrays and the three
edge arrays extended by deltas of equal lengths), and the three per-block
arrays are untouched (they change only at commit). The scratch maps are
unconstrained. -/
structure Grows (s t : BuilderState) : Prop where
  nodes : ∃ dt df, df.length = dt.length ∧
    t.node_types = s.node_types ++ dt ∧ t.node_features = s.node_features ++ df
  edges : ∃ ds dr de, dr.length = ds.length ∧ de.length = ds.length ∧
    t.edge_senders = s.edge_senders ++ ds ∧ t.edge_receivers = s.edge_receivers ++ dr ∧
    t.edge_types = s.edge_types ++ de
  nnpb : t.num_nodes_per_block = s.num_nodes_per_block
  nepb : t.num_edges_per_block = s.num_edges_per_block
  gf : t.global_features = s.global_features

/-- Every recorded edge endpoint is a valid node index. -/
def EdgesOk (st : BuilderState) : Prop :=
  (∀ e ∈ st.edge_senders, 0 ≤ e ∧ e < numNodes st) ∧
  (∀ e ∈ st.edge_receivers, 0 ≤ e ∧ e < numNodes st)

/-- The contract of every step of the instruction loop: any returned state
extends the input state, and valid edge endpoints stay valid. -/
def StepSpec (st : BuilderState) (r : Option (Bool × BuilderState)) : Prop :=
  ∀ (b : Bool) (st' : BuilderState), r = some (b, st') →
    Grows st st' ∧ (EdgesOk st → EdgesOk st')

/-- The length/sum invariant of the accumulator arrays after successful adds
(the claim C2 invariant). -/
def BlockInv (st : BuilderState) : Prop :=
  st.num_nodes_per_block.sum = (st.node_types.length : Int) ∧
  st.node_types.length = st.node_features.length ∧
  st.num_edges_per_block.sum = (st.edge_senders.length : Int) ∧
  st.edge_receivers.length = st.edge_senders.length ∧
  st.edge_types.length = st.edge_senders.length ∧
  EdgesOk st

/-- The per-block segment decomposition of the node arrays: `node_types` is
the concatenation of one segment per added block, `num_nodes_per_block` lists
the segment sizes, and every segment starts with its first instruction's
`kInstruction` node. Holds for builders fed only non-empty instruction
sequences. -/
def SegStructure (st : BuilderState) : Prop :=
  ∃ segs : List (List NodeType),
    st.node_types = segs.flatten ∧
    st.num_nodes_per_block = segs.map (fun seg => (seg.length : Int)) ∧
    ∀ seg ∈ segs, seg.head? = some NodeType.kInstruction

/-! ## Theorems -/

/-! ### C10: ParseRawData is an order-preserving elementwise map -/

theorem parseRawDataGo_eq {α : Type} (parseFromString : String → α) :
    ∀ (input : List String) (output : List α),
      parseRawDataGo parseFromString output input = output ++ input.map parseFromString
  | [], output => by simp [parseRawDataGo]
  | s :: rest, output => by
      simp [parseRawDataGo, parseRawDataGo_eq parseFromString rest]

/-- C10: `ParseRawData` returns exactly one parsed proto per input string, in
input order (so the output length equals the input length), and the element
at each position is obtained by parsing only the input string at the same
position. -/
theorem parseRawData_maps_each_input {α : Type} (parseFromString : String → α)
    (input : List String) :
    parseRawData parseFromString input = input.map parseFromString ∧
    (parseRawData parseFromString input).length = input.length ∧
    ∀ i : Fin input.length,
      (parseRawData parseFromString input).get? i.1 = some (parseFromString (input.get i)) := by
  have h : parseRawData parseFromString input = input.map parseFromString := by
    simp [parseRawData, parseRawDataGo_eq]
  refine ⟨h, by simp [h], fun i => ?_⟩
  rw [h, List.get?_eq_get (by simp)]
  simp

/-! ### C4: DEFREG value selection in the emitted ASM file -/

theorem asmRegisterValue_eq_claimRegisterValue (accessed_addrs : AccessedAddrs)
    (register_id : RegisterId) :
    asmRegisterValue accessed_addrs register_id
      = claimRegisterValue accessed_addrs.initial_regs register_id := by
  cases register_id with
  | gpr g => cases g <;> rfl
  | other id => rfl

/-- C4: in the emitted ASM file, the DEFREG lines are exactly one line per
register of `used_registers`, in order, and the value of each is the
corresponding entry of `accessed_addrs.initial_regs` when the register is one
of the 16 canonical GPRs (RAX..R15), and `kInitialRegVal` for every register
of any other class. -/
theorem writeAsmOutput_defreg_values (reg_name : RegisterId → String)
    (initial_mem_val_str : String) (ab : AnnotatedBlock) :
    (writeAsmOutput reg_name initial_mem_val_str ab).take ab.used_registers.length
      = ab.used_registers.map fun register_id =>
          AsmLine.defreg (reg_name register_id)
            (claimRegisterValue ab.accessed_addrs.initial_regs register_id) := by
  have hmap :
      (ab.used_registers.map fun register_id =>
          AsmLine.defreg (reg_name register_id)
            (asmRegisterValue ab.accessed_addrs register_id))
        = ab.used_registers.map fun register_id =>
            AsmLine.defreg (reg_name register_id)
              (claimRegisterValue ab.accessed_addrs.initial_regs register_id) :=
    List.map_congr_left fun register_id _ => by
      rw [asmRegisterValue_eq_claimRegisterValue]
  calc (writeAsmOutput reg_name initial_mem_val_str ab).take ab.used_registers.length
      = (ab.used_registers.map fun register_id =>
          AsmLine.defreg (reg_name register_id)
            (asmRegisterValue ab.accessed_addrs register_id)) := by
        rw [writeAsmOutput]
        rw [List.append_assoc, List.append_assoc, List.append_assoc]
        rw [show ab.used_registers.length
              = (ab.used_registers.map fun register_id =>
                  AsmLine.defreg (reg_name register_id)
                    (asmRegisterValue ab.accessed_addrs register_id)).length by simp]
        exact List.take_left _ _
    _ = _ := hmap

/-! ### Converter loop lemmas -/

theorem runFinale_file_counter (flags : ConverterFlags) (jsonOk : Nat → Bool)
    (fc fails ann snippets : Nat) (events : List RunEvent) :
    (runFinale flags jsonOk fc fails ann snippets events).file_counter = fc := by
  simp only [runFinale]
  split_ifs <;> rfl

theorem runLoop_file_counter_le (flags : ConverterFlags) (jsonOk : Nat → Bool) :
    ∀ (lines : List LineOutcome) (fc fails ann snippets : Nat) (events : List RunEvent),
      fc ≤ flags.max_bb_count →
      (runLoop flags jsonOk lines fc fails ann snippets events).file_counter
        ≤ flags.max_bb_count
  | [], fc, fails, ann, snippets, events, hfc => by
      simpa [runLoop, runFinale_file_counter] using hfc
  | line :: rest, fc, fails, ann, snippets, events, hfc => by
      simp only [runLoop]
      split_ifs <;>
        first
          | simpa [runFinale_file_counter] using hfc
          | exact hfc
          | exact runLoop_file_counter_le flags jsonOk rest _ _ _ _ _ hfc
          | exact runLoop_file_counter_le flags jsonOk rest _ _ _ _ _ (by omega)


theorem forall_mem_append_singleton {P : RunEvent → Bool} {events : List RunEvent}
    {x : RunEvent} (h : ∀ e ∈ events, P e = false) (hx : P x = false) :
    ∀ e ∈ events ++ [x], P e = false := by
  intro e he
  rcases List.mem_append.mp he with h1 | h2
  · exact h e h1
  · rw [List.mem_singleton.mp h2]
    exact hx

theorem not_exists_of_clean {P : RunEvent → Bool} {events : List RunEvent}
    (h : ∀ e ∈ events, P e = false) : ¬∃ e ∈ events, P e = true := by
  rintro ⟨e, he, ht⟩
  rw [h e he] at ht
  exact Bool.false_ne_true ht

theorem runFinale_exit_code_spec (flags : ConverterFlags) (jsonOk : Nat → Bool)
    (fc fails ann snippets : Nat) (events : List RunEvent)
    (hj : ∀ e ∈ events, isFailedJsonFlush e = false)
    (ha : ∀ e ∈ events, isFailedAsmWrite e = false) :
    ExitCodeSpec (runFinale flags jsonOk fc fails ann snippets events) := by
  simp only [runFinale, ExitCodeSpec]
  split_ifs with h1 h2
  · constructor
    · constructor
      · intro h0
        exact absurd h0 (by simp)
      · intro hex
        exfalso
        refine not_exists_of_clean ?_ hex
        refine forall_mem_append_singleton (forall_mem_append_singleton hj ?_) rfl
        simp [isFailedJsonFlush, h2]
    · intro hex
      exfalso
      refine not_exists_of_clean ?_ hex
      exact forall_mem_append_singleton (forall_mem_append_singleton ha rfl) rfl
  · constructor
    · constructor
      · intro _
        refine ⟨RunEvent.jsonFlush (fc / flags.blocks_per_json_file) snippets
          (jsonOk (fc / flags.blocks_per_json_file)), by simp, ?_⟩
        simp only [Bool.not_eq_true] at h2
        simp [isFailedJsonFlush, h2]
      · intro _
        rfl
    · intro hex
      exfalso
      refine not_exists_of_clean ?_ hex
      exact forall_mem_append_singleton ha rfl
  · constructor
    · constructor
      · intro h0
        exact absurd h0 (by simp)
      · intro hex
        exfalso
        refine not_exists_of_clean ?_ hex
        exact forall_mem_append_singleton hj rfl
    · intro hex
      exfalso
      refine not_exists_of_clean ?_ hex
      exact forall_mem_append_singleton ha rfl

theorem exitCodeSpec_exit2 {events : List RunEvent} {fc fails ann : Nat}
    (hj : ∀ e ∈ events, isFailedJsonFlush e = false) :
    ExitCodeSpec ⟨2, events, fc, fails, ann⟩ :=
  ⟨⟨fun h0 => absurd h0 (by simp),
    fun hex => absurd hex (not_exists_of_clean hj)⟩, fun _ => rfl⟩

theorem exitCodeSpec_exit4 {events : List RunEvent} {fc fails ann : Nat}
    (ha : ∀ e ∈ events, isFailedAsmWrite e = false)
    (hmem : ∃ e ∈ events, isFailedJsonFlush e = true) :
    ExitCodeSpec ⟨4, events, fc, fails, ann⟩ :=
  ⟨⟨fun _ => hmem, fun _ => rfl⟩, fun hex => absurd hex (not_exists_of_clean ha)⟩

theorem runLoop_exit_code_spec (flags : ConverterFlags) (jsonOk : Nat → Bool) :
    ∀ (lines : List LineOutcome) (fc fails ann snippets : Nat) (events : List RunEvent),
      (∀ e ∈ events, isFailedJsonFlush e = false) →
      (∀ e ∈ events, isFailedAsmWrite e = false) →
      ExitCodeSpec (runLoop flags jsonOk lines fc fails ann snippets events)
  | [], fc, fails, ann, snippets, events, hj, ha => by
      rw [runLoop]
      exact runFinale_exit_code_spec flags jsonOk fc fails ann snippets events hj ha
  | line :: rest, fc, fails, ann, snippets, events, hj, ha => by
      simp only [runLoop]
      split_ifs with h1 h2 h3 h4 h5 h6 h7 h8 h9 h10 h11 h12
      -- max_bb_count reached: the finale
      · exact runFinale_exit_code_spec flags jsonOk fc fails ann snippets events hj ha
      -- loop-register skip
      · exact runLoop_exit_code_spec flags jsonOk rest fc (fails + 1) (ann + 1) snippets _
          (forall_mem_append_singleton hj rfl) (forall_mem_append_singleton ha rfl)
      -- ASM write failed, ASM enabled: exit 2
      · exact exitCodeSpec_exit2 (forall_mem_append_singleton hj rfl)
      -- ASM write failed but ASM disabled: contradictory branch
      · exact absurd h5.1 h6
      -- full batch, flush succeeded, ASM enabled
      · have hok : line.asmWriteOk = true := by
          by_contra hnot
          exact h5 ⟨h10, by simpa using hnot⟩
        exact runLoop_exit_code_spec flags jsonOk rest (fc + 1) fails (ann + 1) 0 _
          (forall_mem_append_singleton (forall_mem_append_singleton hj rfl)
            (by simp [isFailedJsonFlush, h9]))
          (forall_mem_append_singleton
            (forall_mem_append_singleton ha (by simp [isFailedAsmWrite, hok])) rfl)
      -- full batch, flush succeeded, ASM disabled
      · exact runLoop_exit_code_spec flags jsonOk rest (fc + 1) fails (ann + 1) 0 _
          (forall_mem_append_singleton hj (by simp [isFailedJsonFlush, h9]))
          (forall_mem_append_singleton ha rfl)
      -- full batch, flush failed, ASM enabled: exit 4
      · have hok : line.asmWriteOk = true := by
          by_contra hnot
          exact h5 ⟨h11, by simpa using hnot⟩
        refine exitCodeSpec_exit4
          (forall_mem_append_singleton
            (forall_mem_append_singleton ha (by simp [isFailedAsmWrite, hok])) rfl) ?_
        refine ⟨RunEvent.jsonFlush (fc / flags.blocks_per_json_file) (snippets + 1)
          (jsonOk (fc / flags.blocks_per_json_file)), by simp, ?_⟩
        simp only [Bool.not_eq_true] at h9
        simp [isFailedJsonFlush, h9]
      -- full batch, flush failed, ASM disabled: exit 4
      · refine exitCodeSpec_exit4 (forall_mem_append_singleton ha rfl) ?_
        refine ⟨RunEvent.jsonFlush (fc / flags.blocks_per_json_file) (snippets + 1)
          (jsonOk (fc / flags.blocks_per_json_file)), by simp, ?_⟩
        simp only [Bool.not_eq_true] at h9
        simp [isFailedJsonFlush, h9]
      -- JSON enabled, batch not full, ASM enabled
      · have hok : line.asmWriteOk = true := by
          by_contra hnot
          exact h5 ⟨h12, by simpa using hnot⟩
        exact runLoop_exit_code_spec flags jsonOk rest (fc + 1) fails (ann + 1)
          (snippets + 1) _ (forall_mem_append_singleton hj rfl)
          (forall_mem_append_singleton ha (by simp [isFailedAsmWrite, hok]))
      -- JSON enabled, batch not full, ASM disabled
      · exact runLoop_exit_code_spec flags jsonOk rest (fc + 1) fails (ann + 1)
          (snippets + 1) _ hj ha
      -- JSON disabled, ASM enabled
      · rename_i h12'
        have hok : line.asmWriteOk = true := by
          by_contra hnot
          exact h5 ⟨h12', by simpa using hnot⟩
        exact runLoop_exit_code_spec flags jsonOk rest (fc + 1) fails (ann + 1)
          snippets _ (forall_mem_append_singleton hj rfl)
          (forall_mem_append_singleton ha (by simp [isFailedAsmWrite, hok]))
      -- JSON disabled, ASM disabled
      · exact runLoop_exit_code_spec flags jsonOk rest (fc + 1) fails (ann + 1)
          snippets _ hj ha
      -- annotation failed: exit 2
      · exact exitCodeSpec_exit2 hj
      -- no comma: exit 2
      · exact exitCodeSpec_exit2 hj

theorem runFinale_reports (flags : ConverterFlags) (jsonOk : Nat → Bool)
    (fc fails ann snippets : Nat) (events : List RunEvent) :
    (runFinale flags jsonOk fc fails ann snippets events).exitCode = 0 →
    (runFinale flags jsonOk fc fails ann snippets events).events.getLast?
      = some (RunEvent.reportLoopRegisterFailures
          (runFinale flags jsonOk fc fails ann snippets events).loop_register_failures) := by
  simp only [runFinale]
  split_ifs with h1 h2
  · intro _
    simp
  · intro h0
    exact absurd h0 (by simp)
  · intro _
    simp

theorem runLoop_reports (flags : ConverterFlags) (jsonOk : Nat → Bool) :
    ∀ (lines : List LineOutcome) (fc fails ann snippets : Nat) (events : List RunEvent),
      (runLoop flags jsonOk lines fc fails ann snippets events).exitCode = 0 →
      (runLoop flags jsonOk lines fc fails ann snippets events).events.getLast?
        = some (RunEvent.reportLoopRegisterFailures
            (runLoop flags jsonOk lines fc fails ann snippets events).loop_register_failures)
  | [], fc, fails, ann, snippets, events => by
      rw [runLoop]
      exact runFinale_reports flags jsonOk fc fails ann snippets events
  | line :: rest, fc, fails, ann, snippets, events => by
      simp only [runLoop]
      split_ifs <;>
        first
          | exact runFinale_reports flags jsonOk fc fails ann snippets events
          | exact runLoop_reports flags jsonOk rest _ _ _ _ _
          | (intro h0; exact absurd h0 (by simp))

/-- C7: when a block has no loop register and the skip policy is enabled, the
run does not fail: the iteration emits no ASM or JSON output for the block,
increments the loop-register-failure counter, and continues with the
remaining input unchanged; and every run that reaches the end of input
reports the final skip count as its last output event. -/
theorem skip_no_loop_register_skips_and_continues
    (flags : ConverterFlags) (jsonOk : Nat → Bool) (line : LineOutcome)
    (rest : List LineOutcome) (fc fails ann snippets : Nat) (events : List RunEvent)
    (hskip : flags.skip_no_loop_register = true) (hcomma : line.hasComma = true)
    (hann : line.annotationOk = true) (hlr : line.hasLoopRegister = false)
    (hmax : fc < flags.max_bb_count) :
    runLoop flags jsonOk (line :: rest) fc fails ann snippets events
      = runLoop flags jsonOk rest fc (fails + 1) (ann + 1) snippets
          (events ++ [RunEvent.skipNoLoopRegister]) ∧
    ∀ lines' : List LineOutcome,
      (run flags jsonOk lines').exitCode = 0 →
      (run flags jsonOk lines').events.getLast?
        = some (RunEvent.reportLoopRegisterFailures
            (run flags jsonOk lines').loop_register_failures) := by
  constructor
  · have hnle : ¬flags.max_bb_count ≤ fc := by omega
    rw [runLoop]
    rw [if_neg hnle, if_neg (by simp [hcomma]), if_neg (by simp [hann]),
      if_pos (by simp [hlr, hskip])]
  · intro lines' h0
    exact runLoop_reports flags jsonOk lines' 0 0 0 0 [] h0

/-- C7 witness: a concrete run with one loop-register-less block under the
skip policy: the iteration reduces to the continuation with the failure
counter incremented and only the skip diagnostic event, and the completed run
reports the skip count last. -/
theorem skip_no_loop_register_witness :
    runLoop ⟨false, false, 10, 10, true⟩ (fun _ => true)
        [⟨true, true, false, true⟩] 0 0 0 0 []
      = runLoop ⟨false, false, 10, 10, true⟩ (fun _ => true) [] 0 1 1 0
          [RunEvent.skipNoLoopRegister] ∧
    (run ⟨false, false, 10, 10, true⟩ (fun _ => true)
        [⟨true, true, false, true⟩]).events.getLast?
      = some (RunEvent.reportLoopRegisterFailures
          (run ⟨false, false, 10, 10, true⟩ (fun _ => true)
            [⟨true, true, false, true⟩]).loop_register_failures) :=
  ⟨(skip_no_loop_register_skips_and_continues ⟨false, false, 10, 10, true⟩
      (fun _ => true) ⟨true, true, false, true⟩ [] 0 0 0 0 [] rfl rfl rfl rfl
      (by norm_num)).1,
   (skip_no_loop_register_skips_and_continues ⟨false, false, 10, 10, true⟩
      (fun _ => true) ⟨true, true, false, true⟩ [] 0 0 0 0 [] rfl rfl rfl rfl
      (by norm_num)).2 [⟨true, true, false, true⟩] (by decide)⟩

/-- C9 (amended): the number of blocks emitted (counted by `file_counter`)
never exceeds `max_bb_count`, for every input and every combination of flags;
annotated-but-skipped blocks are not counted, so the number of blocks parsed,
disassembled and annotated can exceed the bound. -/
theorem run_file_counter_le_max_bb_count (flags : ConverterFlags)
    (jsonOk : Nat → Bool) (lines : List LineOutcome) :
    (run flags jsonOk lines).file_counter ≤ flags.max_bb_count :=
  runLoop_file_counter_le flags jsonOk lines 0 0 0 0 [] (Nat.zero_le _)

/-- C9 counterexample: with `max_bb_count = 1` and two annotatable input
lines that lack a loop register under the skip policy, the run parses,
disassembles and annotates 2 blocks — more than `max_bb_count` — because
skipped blocks never increment `file_counter` (lines 420-428, 453-457). -/
theorem annotated_blocks_exceed_max_bb_count :
    (run ⟨false, false, 1, 1, true⟩ (fun _ => true)
        [⟨true, true, false, true⟩, ⟨true, true, false, true⟩]).annotatedBlocks = 2 ∧
    (run ⟨false, false, 1, 1, true⟩ (fun _ => true)
        [⟨true, true, false, true⟩, ⟨true, true, false, true⟩]).exitCode = 0 ∧
    ¬(run ⟨false, false, 1, 1, true⟩ (fun _ => true)
        [⟨true, true, false, true⟩, ⟨true, true, false, true⟩]).annotatedBlocks
      ≤ (1 : Nat) := by decide

/-- C3 (amended): the program exits with code 4 exactly when writing a JSON
batch file fails; a failure to write the per-block ASM .test file terminates
the run with exit code 2 (convert_bhive_to_llvm_exegesis_input.cc line 438),
not 4. -/
theorem run_output_write_failure_exit_codes (flags : ConverterFlags)
    (jsonOk : Nat → Bool) (lines : List LineOutcome) :
    ((run flags jsonOk lines).exitCode = 4 ↔
      ∃ e ∈ (run flags jsonOk lines).events, isFailedJsonFlush e = true) ∧
    ((∃ e ∈ (run flags jsonOk lines).events, isFailedAsmWrite e = true) →
      (run flags jsonOk lines).exitCode = 2) :=
  runLoop_exit_code_spec flags jsonOk lines 0 0 0 0 [] (by simp) (by simp)

/-- C3 witness: a run whose only JSON batch write fails exits with code 4,
by the amended theorem. -/
theorem run_output_write_failure_exit_codes_witness :
    (run ⟨false, true, 1, 10, true⟩ (fun _ => false)
        [⟨true, true, true, true⟩]).exitCode = 4 :=
  (run_output_write_failure_exit_codes ⟨false, true, 1, 10, true⟩ (fun _ => false)
    [⟨true, true, true, true⟩]).1.mpr (by decide)

/-- C3 counterexample: a run in which writing an output file (the per-block
ASM .test file) fails, yet the program terminates with exit code 2, not 4 as
the claim states. -/
theorem asm_write_failure_exits_with_code_2 :
    (run ⟨true, false, 1, 10, true⟩ (fun _ => true)
        [⟨true, true, true, false⟩]).events = [RunEvent.asmWrite 0 false] ∧
    (run ⟨true, false, 1, 10, true⟩ (fun _ => true)
        [⟨true, true, true, false⟩]).exitCode = 2 ∧
    (run ⟨true, false, 1, 10, true⟩ (fun _ => true)
        [⟨true, true, true, false⟩]).exitCode ≠ 4 := by decide

theorem fullFlushes_succ (B k : Nat) :
    fullFlushes B (k + 1) = fullFlushes B k ++ [(k, B)] := by
  simp [fullFlushes, List.range_succ]

theorem jsonFlushes_append (a b : List RunEvent) :
    jsonFlushes (a ++ b) = jsonFlushes a ++ jsonFlushes b := by
  simp [jsonFlushes]

theorem batch_full_iff (B k s : Nat) (hB : 0 < B) (hs : s < B) :
    (k * B + s + 1) % B = 0 ↔ s + 1 = B := by
  have hmod : (k * B + s + 1) % B = (s + 1) % B := by
    rw [Nat.add_assoc, Nat.mul_comm]
    exact Nat.mul_add_mod B k (s + 1)
  constructor
  · intro h
    rw [hmod] at h
    have h2 : B ∣ s + 1 := Nat.dvd_of_mod_eq_zero h
    have h3 : B ≤ s + 1 := Nat.le_of_dvd (by omega) h2
    omega
  · intro h
    rw [hmod, h, Nat.mod_self]

theorem emitted_div_batch (B k s : Nat) (hB : 0 < B) (hs : s < B) :
    (k * B + s) / B = k := by
  rw [Nat.add_comm, Nat.mul_comm, Nat.add_mul_div_left s k hB, Nat.div_eq_of_lt hs]
  omega

theorem flushShape_of_full {B : Nat} {fl : List (Nat × Nat)} (k : Nat)
    (h : fl = fullFlushes B k) : FlushShape B fl :=
  ⟨k, Or.inl h⟩

theorem flushShape_props {B : Nat} (hB : 0 < B) {fl : List (Nat × Nat)}
    (h : FlushShape B fl) :
    fl.map Prod.fst = List.range fl.length ∧
    (∀ p ∈ fl.dropLast, p.2 = B) ∧
    (∀ p ∈ fl, 0 < p.2 ∧ p.2 ≤ B) := by
  rcases h with ⟨k, hfull | ⟨s, hs0, hsB, hpart⟩⟩
  · subst hfull
    refine ⟨?_, ?_, ?_⟩
    · simp [fullFlushes, List.map_map, Function.comp_def]
    · intro p hp
      have hp' : p ∈ fullFlushes B k := List.dropLast_subset _ hp
      rcases List.mem_map.mp hp' with ⟨i, _, rfl⟩
      rfl
    · intro p hp
      rcases List.mem_map.mp hp with ⟨i, _, rfl⟩
      exact ⟨hB, le_refl B⟩
  · subst hpart
    refine ⟨?_, ?_, ?_⟩
    · simp [fullFlushes, List.map_map, Function.comp_def, List.range_succ]
    · intro p hp
      rw [List.dropLast_concat] at hp
      rcases List.mem_map.mp hp with ⟨i, _, rfl⟩
      rfl
    · intro p hp
      rcases List.mem_append.mp hp with h1 | h2
      · rcases List.mem_map.mp h1 with ⟨i, _, rfl⟩
        exact ⟨hB, le_refl B⟩
      · rw [List.mem_singleton.mp h2]
        exact ⟨hs0, by omega⟩

theorem runFinale_flush_shape (flags : ConverterFlags) (jsonOk : Nat → Bool)
    (fc fails ann snippets : Nat) (events : List RunEvent)
    (hB : 0 < flags.blocks_per_json_file)
    (hinv : (flags.jsonEnabled = false ∧ jsonFlushes events = []) ∨
            (flags.jsonEnabled = true ∧
             ∃ k, fc = k * flags.blocks_per_json_file + snippets ∧
               snippets < flags.blocks_per_json_file ∧
               jsonFlushes events = fullFlushes flags.blocks_per_json_file k)) :
    FlushShape flags.blocks_per_json_file
      (jsonFlushes (runFinale flags jsonOk fc fails ann snippets events).events) := by
  simp only [runFinale]
  split_ifs with h1 h2
  · -- final partial flush, which succeeds; the report follows
    rcases hinv with ⟨hoff, _⟩ | ⟨_, k, hfc, hsn, hev⟩
    · exact absurd h1.1 (by simp [hoff])
    · have hdiv : fc / flags.blocks_per_json_file = k := by
        rw [hfc]
        exact emitted_div_batch _ k snippets hB hsn
      refine ⟨k, Or.inr ⟨snippets, by omega, hsn, ?_⟩⟩
      simp only [jsonFlushes_append, hev, hdiv]
      simp [jsonFlushes]
  · -- final partial flush, which fails: exit 4 after recording the event
    rcases hinv with ⟨hoff, _⟩ | ⟨_, k, hfc, hsn, hev⟩
    · exact absurd h1.1 (by simp [hoff])
    · have hdiv : fc / flags.blocks_per_json_file = k := by
        rw [hfc]
        exact emitted_div_batch _ k snippets hB hsn
      refine ⟨k, Or.inr ⟨snippets, by omega, hsn, ?_⟩⟩
      simp only [jsonFlushes_append, hev, hdiv]
      simp [jsonFlushes]
  · -- no final flush
    rcases hinv with ⟨_, hev⟩ | ⟨_, k, _, _, hev⟩
    · refine flushShape_of_full 0 ?_
      simp only [jsonFlushes_append, hev]
      simp [jsonFlushes, fullFlushes]
    · refine flushShape_of_full k ?_
      simp only [jsonFlushes_append, hev]
      simp [jsonFlushes]

set_option maxHeartbeats 1000000 in
theorem runLoop_flush_shape (flags : ConverterFlags) (jsonOk : Nat → Bool)
    (hB : 0 < flags.blocks_per_json_file) :
    ∀ (lines : List LineOutcome) (fc fails ann snippets : Nat) (events : List RunEvent),
      ((flags.jsonEnabled = false ∧ jsonFlushes events = []) ∨
       (flags.jsonEnabled = true ∧
        ∃ k, fc = k * flags.blocks_per_json_file + snippets ∧
          snippets < flags.blocks_per_json_file ∧
          jsonFlushes events = fullFlushes flags.blocks_per_json_file k)) →
      FlushShape flags.blocks_per_json_file
        (jsonFlushes (runLoop flags jsonOk lines fc fails ann snippets events).events)
  | [], fc, fails, ann, snippets, events, hinv => by
      rw [runLoop]
      exact runFinale_flush_shape flags jsonOk fc fails ann snippets events hB hinv
  | line :: rest, fc, fails, ann, snippets, events, hinv => by
      simp only [runLoop]
      split_ifs with h1 h2 h3 h4 h5 h6 h7 h8 h9 h10 h11 h12
      -- max_bb_count reached: the finale
      · exact runFinale_flush_shape flags jsonOk fc fails ann snippets events hB hinv
      -- loop-register skip: no flush event, state unchanged
      · refine runLoop_flush_shape flags jsonOk hB rest fc (fails + 1) (ann + 1) snippets _ ?_
        rcases hinv with ⟨hoff, hev⟩ | ⟨hon, k, hfc, hsn, hev⟩
        · exact Or.inl ⟨hoff, by (simp only [jsonFlushes_append, hev]; simp [jsonFlushes])⟩
        · exact Or.inr ⟨hon, k, hfc, hsn, by (simp only [jsonFlushes_append, hev]; simp [jsonFlushes])⟩
      -- ASM write failed (ASM enabled): exit 2, flushes unchanged
      · rcases hinv with ⟨_, hev⟩ | ⟨_, k, _, _, hev⟩
        · exact flushShape_of_full 0
            (by (simp only [jsonFlushes_append, hev]; simp [jsonFlushes, fullFlushes]))
        · exact flushShape_of_full k
            (by (simp only [jsonFlushes_append, hev]; simp [jsonFlushes]))
      -- contradictory branch
      · exact absurd h5.1 h6
      -- full batch, flush succeeded, ASM enabled
      · rcases hinv with ⟨hoff, _⟩ | ⟨_, k, hfc, hsn, hev⟩
        · exact absurd h7 (by simp [hoff])
        · have hfull : snippets + 1 = flags.blocks_per_json_file :=
            (batch_full_iff flags.blocks_per_json_file k snippets hB hsn).mp
              (by rw [hfc] at h8; exact h8)
          have hdiv : fc / flags.blocks_per_json_file = k := by
            rw [hfc]
            exact emitted_div_batch _ k snippets hB hsn
          refine runLoop_flush_shape flags jsonOk hB rest (fc + 1) fails (ann + 1) 0 _ ?_
          refine Or.inr ⟨h7, k + 1, by (rw [Nat.add_mul]; omega), hB, ?_⟩
          simp only [jsonFlushes_append, hev, hdiv]
          rw [fullFlushes_succ]
          simp [jsonFlushes, hfull]
      -- full batch, flush succeeded, ASM disabled
      · rcases hinv with ⟨hoff, _⟩ | ⟨_, k, hfc, hsn, hev⟩
        · exact absurd h7 (by simp [hoff])
        · have hfull : snippets + 1 = flags.blocks_per_json_file :=
            (batch_full_iff flags.blocks_per_json_file k snippets hB hsn).mp
              (by rw [hfc] at h8; exact h8)
          have hdiv : fc / flags.blocks_per_json_file = k := by
            rw [hfc]
            exact emitted_div_batch _ k snippets hB hsn
          refine runLoop_flush_shape flags jsonOk hB rest (fc + 1) fails (ann + 1) 0 _ ?_
          refine Or.inr ⟨h7, k + 1, by (rw [Nat.add_mul]; omega), hB, ?_⟩
          simp only [jsonFlushes_append, hev, hdiv]
          rw [fullFlushes_succ]
          simp [jsonFlushes, hfull]
      -- full batch, flush failed, ASM enabled: exit 4
      · rcases hinv with ⟨hoff, _⟩ | ⟨_, k, hfc, hsn, hev⟩
        · exact absurd h7 (by simp [hoff])
        · have hfull : snippets + 1 = flags.blocks_per_json_file :=
            (batch_full_iff flags.blocks_per_json_file k snippets hB hsn).mp
              (by rw [hfc] at h8; exact h8)
          have hdiv : fc / flags.blocks_per_json_file = k := by
            rw [hfc]
            exact emitted_div_batch _ k snippets hB hsn
          refine flushShape_of_full (k + 1) ?_
          simp only [jsonFlushes_append, hev, hdiv]
          rw [fullFlushes_succ]
          simp [jsonFlushes, hfull]
      -- full batch, flush failed, ASM disabled: exit 4
      · rcases hinv with ⟨hoff, _⟩ | ⟨_, k, hfc, hsn, hev⟩
        · exact absurd h7 (by simp [hoff])
        · have hfull : snippets + 1 = flags.blocks_per_json_file :=
            (batch_full_iff flags.blocks_per_json_file k snippets hB hsn).mp
              (by rw [hfc] at h8; exact h8)
          have hdiv : fc / flags.blocks_per_json_file = k := by
            rw [hfc]
            exact emitted_div_batch _ k snippets hB hsn
          refine flushShape_of_full (k + 1) ?_
          simp only [jsonFlushes_append, hev, hdiv]
          rw [fullFlushes_succ]
          simp [jsonFlushes, hfull]
      -- JSON enabled, batch not full, ASM enabled
      · rcases hinv with ⟨hoff, _⟩ | ⟨_, k, hfc, hsn, hev⟩
        · exact absurd h7 (by simp [hoff])
        · have hlt : snippets + 1 < flags.blocks_per_json_file := by
            have hne : ¬(snippets + 1 = flags.blocks_per_json_file) := fun hcontra =>
              h8 (by
                rw [hfc]
                exact (batch_full_iff flags.blocks_per_json_file k snippets hB hsn).mpr
                  hcontra)
            omega
          refine runLoop_flush_shape flags jsonOk hB rest (fc + 1) fails (ann + 1)
            (snippets + 1) _ ?_
          refine Or.inr ⟨h7, k, by omega, hlt, ?_⟩
          (simp only [jsonFlushes_append, hev]; simp [jsonFlushes])
      -- JSON enabled, batch not full, ASM disabled
      · rcases hinv with ⟨hoff, _⟩ | ⟨_, k, hfc, hsn, hev⟩
        · exact absurd h7 (by simp [hoff])
        · have hlt : snippets + 1 < flags.blocks_per_json_file := by
            have hne : ¬(snippets + 1 = flags.blocks_per_json_file) := fun hcontra =>
              h8 (by
                rw [hfc]
                exact (batch_full_iff flags.blocks_per_json_file k snippets hB hsn).mpr
                  hcontra)
            omega
          refine runLoop_flush_shape flags jsonOk hB rest (fc + 1) fails (ann + 1)
            (snippets + 1) _ ?_
          exact Or.inr ⟨h7, k, by omega, hlt, hev⟩
      -- JSON disabled, ASM enabled
      · refine runLoop_flush_shape flags jsonOk hB rest (fc + 1) fails (ann + 1)
          snippets _ ?_
        rcases hinv with ⟨hoff, hev⟩ | ⟨hon, _⟩
        · exact Or.inl ⟨hoff, by (simp only [jsonFlushes_append, hev]; simp [jsonFlushes])⟩
        · exact absurd hon (by simpa using h7)
      -- JSON disabled, ASM disabled
      · refine runLoop_flush_shape flags jsonOk hB rest (fc + 1) fails (ann + 1)
          snippets _ ?_
        rcases hinv with ⟨hoff, hev⟩ | ⟨hon, _⟩
        · exact Or.inl ⟨hoff, hev⟩
        · exact absurd hon (by simpa using h7)
      -- annotation failed: exit 2
      · rcases hinv with ⟨_, hev⟩ | ⟨_, k, _, _, hev⟩
        · exact flushShape_of_full 0 (by simp [hev, fullFlushes])
        · exact flushShape_of_full k hev
      -- no comma: exit 2
      · rcases hinv with ⟨_, hev⟩ | ⟨_, k, _, _, hev⟩
        · exact flushShape_of_full 0 (by simp [hev, fullFlushes])
        · exact flushShape_of_full k hev

/-- C8: in every run, the JSON batch files are numbered sequentially from 0
in emission order (the flush of batch `i` writes file `<i>.json`, with the
file number computed as `file_counter / blocks_per_json_file` at flush time);
every batch except possibly the last is full (exactly `blocks_per_json_file`
blocks), and the final batch is flushed only when non-empty, with at most
`blocks_per_json_file` blocks. -/
theorem json_batch_files_named_sequentially (flags : ConverterFlags)
    (jsonOk : Nat → Bool) (lines : List LineOutcome)
    (hB : 0 < flags.blocks_per_json_file) :
    (jsonFlushes (run flags jsonOk lines).events).map Prod.fst
      = List.range (jsonFlushes (run flags jsonOk lines).events).length ∧
    (∀ p ∈ (jsonFlushes (run flags jsonOk lines).events).dropLast,
      p.2 = flags.blocks_per_json_file) ∧
    (∀ p ∈ jsonFlushes (run flags jsonOk lines).events,
      0 < p.2 ∧ p.2 ≤ flags.blocks_per_json_file) := by
  refine flushShape_props hB (runLoop_flush_shape flags jsonOk hB lines 0 0 0 0 [] ?_)
  cases h : flags.jsonEnabled
  · exact Or.inl ⟨rfl, rfl⟩
  · exact Or.inr ⟨rfl, 0, by simp, hB, rfl⟩

/-- C8 witness: a concrete run with `blocks_per_json_file = 2` and three
emitted blocks: two full batches are impossible, so the trace is batch 0 of
size 2 and a final partial batch 1 of size 1, and the sequential-naming and
batch-size properties hold by the theorem. -/
theorem json_batch_files_named_sequentially_witness :
    (0 : Nat) < 2 ∧
    ((jsonFlushes (run ⟨false, true, 2, 10, true⟩ (fun _ => true)
        [⟨true, true, true, true⟩, ⟨true, true, true, true⟩,
         ⟨true, true, true, true⟩]).events).map Prod.fst
      = List.range (jsonFlushes (run ⟨false, true, 2, 10, true⟩ (fun _ => true)
        [⟨true, true, true, true⟩, ⟨true, true, true, true⟩,
         ⟨true, true, true, true⟩]).events).length ∧
    (∀ p ∈ (jsonFlushes (run ⟨false, true, 2, 10, true⟩ (fun _ => true)
        [⟨true, true, true, true⟩, ⟨true, true, true, true⟩,
         ⟨true, true, true, true⟩]).events).dropLast, p.2 = 2) ∧
    (∀ p ∈ jsonFlushes (run ⟨false, true, 2, 10, true⟩ (fun _ => true)
        [⟨true, true, true, true⟩, ⟨true, true, true, true⟩,
         ⟨true, true, true, true⟩]).events, 0 < p.2 ∧ p.2 ≤ 2)) :=
  ⟨by norm_num,
   json_batch_files_named_sequentially ⟨false, true, 2, 10, true⟩ (fun _ => true)
     [⟨true, true, true, true⟩, ⟨true, true, true, true⟩, ⟨true, true, true, true⟩]
     (by norm_num)⟩

/-! ### Graph-builder step lemmas -/

theorem grows_refl (s : BuilderState) : Grows s s :=
  ⟨⟨[], [], rfl, by simp, by simp⟩,
   ⟨[], [], [], rfl, rfl, by simp, by simp, by simp⟩, rfl, rfl, rfl⟩

theorem grows_trans {s t u : BuilderState} (h1 : Grows s t) (h2 : Grows t u) :
    Grows s u := by
  obtain ⟨⟨dt1, df1, hl1, hnt1, hnf1⟩, ⟨ds1, dr1, de1, hlr1, hle1, hes1, her1, het1⟩,
    hnn1, hne1, hgf1⟩ := h1
  obtain ⟨⟨dt2, df2, hl2, hnt2, hnf2⟩, ⟨ds2, dr2, de2, hlr2, hle2, hes2, her2, het2⟩,
    hnn2, hne2, hgf2⟩ := h2
  refine ⟨⟨dt1 ++ dt2, df1 ++ df2, by simp [hl1, hl2], ?_, ?_⟩,
    ⟨ds1 ++ ds2, dr1 ++ dr2, de1 ++ de2, by simp [hlr1, hlr2], by simp [hle1, hle2],
      ?_, ?_, ?_⟩, ?_, ?_, ?_⟩
  · rw [hnt2, hnt1, List.append_assoc]
  · rw [hnf2, hnf1, List.append_assoc]
  · rw [hes2, hes1, List.append_assoc]
  · rw [her2, her1, List.append_assoc]
  · rw [het2, het1, List.append_assoc]
  · rw [hnn2, hnn1]
  · rw [hne2, hne1]
  · rw [hgf2, hgf1]

theorem grows_numNodes_le {s t : BuilderState} (h : Grows s t) :
    numNodes s ≤ numNodes t := by
  obtain ⟨⟨dt, df, _, hnt, _⟩, _, _, _, _⟩ := h
  simp [numNodes, hnt]

theorem grows_map_change {s : BuilderState} (rn : List (String × Int))
    (an : List (Nat × Int)) :
    Grows s { s with register_nodes := rn, alias_group_nodes := an } :=
  ⟨⟨[], [], rfl, by simp, by simp⟩,
   ⟨[], [], [], rfl, rfl, by simp, by simp, by simp⟩, rfl, rfl, rfl⟩

theorem edgesOk_of_grows_nodes_only {s t : BuilderState} (h : Grows s t)
    (hsend : t.edge_senders = s.edge_senders)
    (hrecv : t.edge_receivers = s.edge_receivers) (hok : EdgesOk s) : EdgesOk t := by
  have hle := grows_numNodes_le h
  exact ⟨fun e he => ⟨(hok.1 e (hsend ▸ he)).1,
           lt_of_lt_of_le (hok.1 e (hsend ▸ he)).2 hle⟩,
         fun e he => ⟨(hok.2 e (hrecv ▸ he)).1,
           lt_of_lt_of_le (hok.2 e (hrecv ▸ he)).2 hle⟩⟩

theorem addNode_eq (st : BuilderState) (nt : NodeType) (ti : Nat) :
    addNode st nt ti = (numNodes st, { st with
      node_types := st.node_types ++ [nt],
      node_features := st.node_features ++ [ti] }) := rfl

theorem grows_addNode (st : BuilderState) (nt : NodeType) (ti : Nat) :
    Grows st (addNode st nt ti).2 :=
  ⟨⟨[nt], [ti], rfl, rfl, rfl⟩,
   ⟨[], [], [], rfl, rfl, by simp [addNode], by simp [addNode], by simp [addNode]⟩,
   rfl, rfl, rfl⟩

theorem edgesOk_addNode (st : BuilderState) (nt : NodeType) (ti : Nat)
    (hok : EdgesOk st) : EdgesOk (addNode st nt ti).2 :=
  edgesOk_of_grows_nodes_only (grows_addNode st nt ti) rfl rfl hok

theorem numNodes_addNode (st : BuilderState) (nt : NodeType) (ti : Nat) :
    numNodes (addNode st nt ti).2 = numNodes st + 1 := by
  simp [addNode, numNodes]

theorem addNodeTok_eq (cfg : BuilderConfig) (st : BuilderState) (nt : NodeType)
    (tok : String) :
    addNodeTok cfg st nt tok = (kInvalidNode, st) ∨
    ∃ ti, addNodeTok cfg st nt tok = addNode st nt ti := by
  unfold addNodeTok
  cases findTokenIndex cfg.node_tokens tok
  · cases cfg.out_of_vocabulary_behavior
    · exact Or.inl rfl
    · exact Or.inr ⟨_, rfl⟩
  · exact Or.inr ⟨_, rfl⟩

theorem addEdge_elim {st st' : BuilderState} {et : EdgeType} {a b : Int}
    (h : addEdge st et a b = some st') :
    (0 ≤ a ∧ a < numNodes st ∧ 0 ≤ b ∧ b < numNodes st) ∧
    st' = { st with
      edge_senders := st.edge_senders ++ [a],
      edge_receivers := st.edge_receivers ++ [b],
      edge_types := st.edge_types ++ [et] } := by
  unfold addEdge at h
  split_ifs at h with hb
  · exact ⟨hb, (Option.some_injective _ h).symm⟩

theorem grows_addEdge {st st' : BuilderState} {et : EdgeType} {a b : Int}
    (h : addEdge st et a b = some st') : Grows st st' := by
  obtain ⟨_, rfl⟩ := addEdge_elim h
  exact ⟨⟨[], [], rfl, by simp, by simp⟩,
    ⟨[a], [b], [et], rfl, rfl, rfl, rfl, rfl⟩, rfl, rfl, rfl⟩

theorem edgesOk_addEdge {st st' : BuilderState} {et : EdgeType} {a b : Int}
    (h : addEdge st et a b = some st') (hok : EdgesOk st) : EdgesOk st' := by
  obtain ⟨⟨ha0, ha1, hb0, hb1⟩, rfl⟩ := addEdge_elim h
  constructor
  · intro e he
    rcases List.mem_append.mp he with h1 | h2
    · exact hok.1 e h1
    · rw [List.mem_singleton.mp h2]
      exact ⟨ha0, ha1⟩
  · intro e he
    rcases List.mem_append.mp he with h1 | h2
    · exact hok.2 e h1
    · rw [List.mem_singleton.mp h2]
      exact ⟨hb0, hb1⟩

theorem stepSpec_bind {st : BuilderState} {r : Option (Bool × BuilderState)}
    {f : BuilderState → Option (Bool × BuilderState)} (hr : StepSpec st r)
    (hf : ∀ st1, r = some (true, st1) → StepSpec st1 (f st1)) :
    StepSpec st (bindStep r f) := by
  intro b st' h
  rcases hrr : r with _ | ⟨b1, st1⟩
  · rw [hrr] at h
    exact absurd h (by simp [bindStep])
  · rw [hrr] at h
    cases b1
    · unfold bindStep at h
      simp only [Option.some_inj, Prod.mk.injEq] at h
      obtain ⟨hb, hst⟩ := h
      subst hb
      subst hst
      exact hr false st1 hrr
    · unfold bindStep at h
      have h1 := hr true st1 hrr
      have h2 := hf st1 hrr b st' h
      exact ⟨grows_trans h1.1 h2.1, fun hok => h2.2 (h1.2 hok)⟩

theorem stepSpec_edge_then_true {st stA : BuilderState} {et : EdgeType} {a d : Int}
    (hG : Grows st stA) (hOk : EdgesOk st → EdgesOk stA) :
    StepSpec st (match addEdge stA et a d with
      | none => none
      | some st3 => some (true, st3)) := by
  intro b st' h
  rcases hE : addEdge stA et a d with _ | st3
  · rw [hE] at h
    exact absurd h (by simp)
  · rw [hE] at h
    simp only [Option.some_inj, Prod.mk.injEq] at h
    obtain ⟨_, hst⟩ := h
    subst hst
    exact ⟨grows_trans hG (grows_addEdge hE),
      fun hok => edgesOk_addEdge hE (hOk hok)⟩

theorem grows_addNodeTok (cfg : BuilderConfig) (st : BuilderState) (nt : NodeType)
    (tok : String) : Grows st (addNodeTok cfg st nt tok).2 := by
  rcases addNodeTok_eq cfg st nt tok with hc | ⟨ti, hc⟩
  · rw [hc]
    exact grows_refl st
  · rw [hc]
    exact grows_addNode st nt ti

theorem edgesOk_addNodeTok (cfg : BuilderConfig) (st : BuilderState) (nt : NodeType)
    (tok : String) (hok : EdgesOk st) : EdgesOk (addNodeTok cfg st nt tok).2 := by
  rcases addNodeTok_eq cfg st nt tok with hc | ⟨ti, hc⟩
  · rw [hc]
    exact hok
  · rw [hc]
    exact edgesOk_addNode st nt ti hok

theorem edgesOk_map_change {s : BuilderState} (rn : List (String × Int))
    (an : List (Nat × Int)) (hok : EdgesOk s) :
    EdgesOk { s with register_nodes := rn, alias_group_nodes := an } :=
  edgesOk_of_grows_nodes_only (grows_map_change rn an) rfl rfl hok

theorem stepSpec_addDependencyOnRegister (cfg : BuilderConfig) (st : BuilderState)
    (dependent_node : Int) (register_name : String) (edge_type : EdgeType) :
    StepSpec st (addDependencyOnRegister cfg st dependent_node register_name edge_type) := by
  intro b st' h
  unfold addDependencyOnRegister at h
  rcases hli : lookupOrInsert st.register_nodes register_name kInvalidNode with ⟨v, m⟩
  rw [hli] at h
  simp only at h
  have hG1 : Grows st { st with register_nodes := m } := grows_map_change m _
  have hOk1 : EdgesOk st → EdgesOk { st with register_nodes := m } :=
    edgesOk_of_grows_nodes_only hG1 rfl rfl
  split_ifs at h with hv hinv
  · -- no node for the register yet, and adding one failed (OOV): return false
    simp only [Option.some_inj, Prod.mk.injEq] at h
    obtain ⟨_, hst⟩ := h
    subst hst
    refine ⟨grows_trans hG1 (grows_trans (grows_addNodeTok cfg _ _ _)
      (grows_map_change _ _)), fun hok => ?_⟩
    exact edgesOk_map_change _ _ (edgesOk_addNodeTok cfg _ _ _ (hOk1 hok))
  · -- no node for the register yet: a node and the edge are added
    refine stepSpec_edge_then_true ?_ (fun hok => ?_) b st' h
    · exact grows_trans hG1 (grows_trans (grows_addNodeTok cfg _ _ _)
        (grows_map_change _ _))
    · exact edgesOk_map_change _ _ (edgesOk_addNodeTok cfg _ _ _ (hOk1 hok))
  · -- the register already has a node: only the edge is added
    exact stepSpec_edge_then_true hG1 hOk1 b st' h

theorem stepSpec_pre {st st0 : BuilderState} (hG : Grows st st0)
    (hOk : EdgesOk st → EdgesOk st0) {r : Option (Bool × BuilderState)}
    (hs : StepSpec st0 r) : StepSpec st r := fun b st' h =>
  ⟨grows_trans hG (hs b st' h).1, fun hok => (hs b st' h).2 (hOk hok)⟩

theorem stepSpec_pure_true (st : BuilderState) : StepSpec st (some (true, st)) := by
  intro b st' h
  simp only [Option.some_inj, Prod.mk.injEq] at h
  obtain ⟨_, hst⟩ := h
  subst hst
  exact ⟨grows_refl st, id⟩

theorem stepSpec_optState_then_edge {st : BuilderState} {o : Option BuilderState}
    {et : EdgeType} {a d : Int} :
    (∀ std, o = some std → Grows st std ∧ (EdgesOk st → EdgesOk std)) →
    StepSpec st (match o with
      | none => none
      | some std =>
        match addEdge std et a d with
        | none => none
        | some ste => some (true, ste)) := by
  intro ho b st' h
  rcases hoo : o with _ | std
  · subst hoo
    exact absurd h (by simp)
  · subst hoo
    obtain ⟨hG, hOk⟩ := ho std rfl
    exact stepSpec_edge_then_true hG hOk b st' h

theorem stepSpec_memory_input (cfg : BuilderConfig) (st : BuilderState)
    (instruction_node : Int) (alias_group_id : Nat) :
    StepSpec st (
      if (lookupOrInsert st.alias_group_nodes alias_group_id kInvalidNode).1
          = kInvalidNode then
        match addEdge
            { (addNode { st with
                alias_group_nodes :=
                  (lookupOrInsert st.alias_group_nodes alias_group_id kInvalidNode).2 }
                NodeType.kMemoryOperand cfg.memory_token).2 with
              alias_group_nodes := mapInsert
                (addNode { st with
                  alias_group_nodes :=
                    (lookupOrInsert st.alias_group_nodes alias_group_id kInvalidNode).2 }
                  NodeType.kMemoryOperand cfg.memory_token).2.alias_group_nodes
                alias_group_id
                (addNode { st with
                  alias_group_nodes :=
                    (lookupOrInsert st.alias_group_nodes alias_group_id kInvalidNode).2 }
                  NodeType.kMemoryOperand cfg.memory_token).1 }
            EdgeType.kInputOperands
            (addNode { st with
              alias_group_nodes :=
                (lookupOrInsert st.alias_group_nodes alias_group_id kInvalidNode).2 }
              NodeType.kMemoryOperand cfg.memory_token).1 instruction_node with
        | none => none
        | some st3 => some (true, st3)
      else
        match addEdge
            { st with alias_group_nodes :=
                (lookupOrInsert st.alias_group_nodes alias_group_id kInvalidNode).2 }
            EdgeType.kInputOperands
            (lookupOrInsert st.alias_group_nodes alias_group_id kInvalidNode).1
            instruction_node with
        | none => none
        | some st3 => some (true, st3)) := by
  intro b st' h
  rcases hli : lookupOrInsert st.alias_group_nodes alias_group_id kInvalidNode
    with ⟨v, m⟩
  rw [hli] at h
  have hG1 : Grows st { st with alias_group_nodes := m } := grows_map_change _ m
  have hOk1 : EdgesOk st → EdgesOk { st with alias_group_nodes := m } :=
    edgesOk_of_grows_nodes_only hG1 rfl rfl
  split_ifs at h with hv
  · refine stepSpec_edge_then_true ?_ (fun hok => ?_) b st' h
    · exact grows_trans hG1 (grows_trans (grows_addNode _ _ _) (grows_map_change _ _))
    · exact edgesOk_map_change _ _ (edgesOk_addNode _ _ _ (hOk1 hok))
  · exact stepSpec_edge_then_true hG1 hOk1 b st' h

theorem stepSpec_register_output (cfg : BuilderConfig) (st : BuilderState)
    (instruction_node : Int) (register_name : String) :
    StepSpec st (
      if (addNodeTok cfg st NodeType.kRegister register_name).1 = kInvalidNode then
        some (false, (addNodeTok cfg st NodeType.kRegister register_name).2)
      else
        match addEdge (addNodeTok cfg st NodeType.kRegister register_name).2
            EdgeType.kOutputOperands instruction_node
            (addNodeTok cfg st NodeType.kRegister register_name).1 with
        | none => none
        | some st2 =>
          some (true, { st2 with
            register_nodes := mapInsert st2.register_nodes register_name
              (addNodeTok cfg st NodeType.kRegister register_name).1 })) := by
  intro b st' h
  split_ifs at h with hinv
  · simp only [Option.some_inj, Prod.mk.injEq] at h
    obtain ⟨_, hst⟩ := h
    subst hst
    exact ⟨grows_addNodeTok cfg st _ _, edgesOk_addNodeTok cfg st _ _⟩
  · rcases hE : addEdge (addNodeTok cfg st NodeType.kRegister register_name).2
        EdgeType.kOutputOperands instruction_node
        (addNodeTok cfg st NodeType.kRegister register_name).1 with _ | st2
    · rw [hE] at h
      exact absurd h (by simp)
    · rw [hE] at h
      simp only [Option.some_inj, Prod.mk.injEq] at h
      obtain ⟨_, hst⟩ := h
      subst hst
      refine ⟨grows_trans (grows_addNodeTok cfg st _ _)
        (grows_trans (grows_addEdge hE) (grows_map_change _ _)), fun hok => ?_⟩
      exact edgesOk_map_change _ _
        (edgesOk_addEdge hE (edgesOk_addNodeTok cfg st _ _ hok))

theorem stepSpec_addInputOperand (cfg : BuilderConfig) (st : BuilderState)
    (instruction_node : Int) (operand : InstructionOperand) :
    StepSpec st (addInputOperand cfg st instruction_node operand) := by
  intro b st' h
  unfold addInputOperand at h
  split_ifs at h with hnode
  rcases operand with register_name | v | _ | address_tuple | alias_group_id | _
  · exact stepSpec_addDependencyOnRegister cfg st instruction_node register_name
      EdgeType.kInputOperands b st' h
  · exact stepSpec_edge_then_true (grows_addNode st _ _)
      (edgesOk_addNode st _ _) b st' h
  · exact stepSpec_edge_then_true (grows_addNode st _ _)
      (edgesOk_addNode st _ _) b st' h
  · -- address operand: address node, up to three register dependencies,
    -- an optional displacement immediate, then the input edge
    refine stepSpec_bind ?_ (fun stb _ => ?_) b st' h
    · refine stepSpec_pre (grows_addNode st NodeType.kAddressOperand cfg.address_token)
        (edgesOk_addNode st NodeType.kAddressOperand cfg.address_token) ?_
      split_ifs
      · exact stepSpec_pure_true _
      · exact stepSpec_addDependencyOnRegister cfg _ _ _ _
    · refine stepSpec_bind ?_ (fun sti _ => ?_)
      · split_ifs
        · exact stepSpec_pure_true _
        · exact stepSpec_addDependencyOnRegister cfg _ _ _ _
      · refine stepSpec_bind ?_ (fun sts _ => ?_)
        · split_ifs
          · exact stepSpec_pure_true _
          · exact stepSpec_addDependencyOnRegister cfg _ _ _ _
        · refine stepSpec_optState_then_edge (fun std hstd => ?_)
          split_ifs at hstd with hdisp
          · exact ⟨grows_trans (grows_addNode sts _ _) (grows_addEdge hstd),
              fun hok => edgesOk_addEdge hstd (edgesOk_addNode sts _ _ hok)⟩
          · rw [Option.some_inj.mp hstd.symm]
            exact ⟨grows_refl _, id⟩
  · -- memory operand: reuse or create the alias-group node, then the edge
    exact stepSpec_memory_input cfg st instruction_node alias_group_id b st' h
  · exact absurd h (by simp)

theorem stepSpec_addOutputOperand (cfg : BuilderConfig) (st : BuilderState)
    (instruction_node : Int) (operand : InstructionOperand) :
    StepSpec st (addOutputOperand cfg st instruction_node operand) := by
  intro b st' h
  unfold addOutputOperand at h
  split_ifs at h with hnode
  rcases operand with register_name | v | _ | address_tuple | alias_group_id | _
  · -- register output: a fresh register node, the edge, then the map update
    exact stepSpec_register_output cfg st instruction_node register_name b st' h
  · exact absurd h (by simp)
  · exact absurd h (by simp)
  · exact absurd h (by simp)
  · -- memory output: always a fresh memory node, map overwrite, then the edge
    refine stepSpec_edge_then_true ?_ (fun hok => ?_) b st' h
    · exact grows_trans (grows_addNode st _ _) (grows_map_change _ _)
    · exact edgesOk_map_change _ _ (edgesOk_addNode st _ _ hok)
  · exact absurd h (by simp)

theorem stepSpec_addInputOperandList (cfg : BuilderConfig) (instruction_node : Int) :
    ∀ (operands : List InstructionOperand) (st : BuilderState),
      StepSpec st (addInputOperandList cfg instruction_node st operands)
  | [], st => stepSpec_pure_true st
  | operand :: rest, st =>
      stepSpec_bind (stepSpec_addInputOperand cfg st instruction_node operand)
        (fun st1 _ => stepSpec_addInputOperandList cfg instruction_node rest st1)

theorem stepSpec_addOutputOperandList (cfg : BuilderConfig) (instruction_node : Int) :
    ∀ (operands : List InstructionOperand) (st : BuilderState),
      StepSpec st (addOutputOperandList cfg instruction_node st operands)
  | [], st => stepSpec_pure_true st
  | operand :: rest, st =>
      stepSpec_bind (stepSpec_addOutputOperand cfg st instruction_node operand)
        (fun st1 _ => stepSpec_addOutputOperandList cfg instruction_node rest st1)

theorem stepSpec_addPrefixList (cfg : BuilderConfig) (instruction_node : Int) :
    ∀ (prefixes : List String) (st : BuilderState),
      StepSpec st (addPrefixList cfg instruction_node st prefixes)
  | [], st => stepSpec_pure_true st
  | pfx :: rest, st => by
      intro b st' h
      rw [addPrefixList] at h
      split_ifs at h with hinv
      · simp only [Option.some_inj, Prod.mk.injEq] at h
        obtain ⟨_, hst⟩ := h
        subst hst
        exact ⟨grows_addNodeTok cfg st _ _, edgesOk_addNodeTok cfg st _ _⟩
      · rcases hE : addEdge (addNodeTok cfg st NodeType.kPrefix pfx).2
            EdgeType.kInstructionPrefix (addNodeTok cfg st NodeType.kPrefix pfx).1
            instruction_node with _ | st2
        · rw [hE] at h
          exact absurd h (by simp)
        · rw [hE] at h
          have hrec := stepSpec_addPrefixList cfg instruction_node rest st2 b st' h
          have hG : Grows st st2 :=
            grows_trans (grows_addNodeTok cfg st _ _) (grows_addEdge hE)
          refine ⟨grows_trans hG hrec.1, fun hok => hrec.2 ?_⟩
          exact edgesOk_addEdge hE (edgesOk_addNodeTok cfg st _ _ hok)

theorem stepSpec_structural_edge (st : BuilderState)
    (previous_instruction_node target : Int) :
    StepSpec st (if 0 ≤ previous_instruction_node then
        match addEdge st EdgeType.kStructuralDependency previous_instruction_node
            target with
        | none => none
        | some st3 => some (true, st3)
      else some (true, st)) := by
  split_ifs
  · exact stepSpec_edge_then_true (grows_refl st) id
  · exact stepSpec_pure_true st

theorem stepSpec_addInstructionList (cfg : BuilderConfig) :
    ∀ (instructions : List Instruction) (st : BuilderState)
      (previous_instruction_node : Int),
      StepSpec st (addInstructionList cfg st previous_instruction_node instructions)
  | [], st, prev => stepSpec_pure_true st
  | instruction :: rest, st, prev => by
      intro b st' h
      rw [addInstructionList] at h
      by_cases hinv :
          (addNodeTok cfg st NodeType.kInstruction instruction.mnemonic).1 = kInvalidNode
      · rw [if_pos hinv] at h
        simp only [Option.some_inj, Prod.mk.injEq] at h
        obtain ⟨_, hst⟩ := h
        subst hst
        exact ⟨grows_addNodeTok cfg st _ _, edgesOk_addNodeTok cfg st _ _⟩
      · rw [if_neg hinv] at h
        refine stepSpec_pre
          (grows_addNodeTok cfg st NodeType.kInstruction instruction.mnemonic)
          (edgesOk_addNodeTok cfg st NodeType.kInstruction instruction.mnemonic)
          ?_ b st' h
        refine stepSpec_bind (stepSpec_addPrefixList cfg _ _ _) (fun st2 _ => ?_)
        refine stepSpec_bind (stepSpec_structural_edge st2 prev _) (fun st3 _ => ?_)
        refine stepSpec_bind (stepSpec_addInputOperandList cfg _ _ _) (fun st4 _ => ?_)
        refine stepSpec_bind (stepSpec_addInputOperandList cfg _ _ _) (fun st5 _ => ?_)
        refine stepSpec_bind (stepSpec_addOutputOperandList cfg _ _ _) (fun st6 _ => ?_)
        refine stepSpec_bind (stepSpec_addOutputOperandList cfg _ _ _) (fun st7 _ => ?_)
        exact stepSpec_addInstructionList cfg rest st7 _

theorem rollbackResize_append {α : Type} (l d : List α) :
    rollbackResize l.length (l ++ d) = some l := by
  simp [rollbackResize, List.take_left]

theorem rollbackResize_self {α : Type} (l : List α) :
    rollbackResize l.length l = some l := by
  simpa using rollbackResize_append l []

theorem add_true_elim {cfg : BuilderConfig} {st st' : BuilderState}
    {instructions : List Instruction}
    (h : addBasicBlockFromInstructions cfg st instructions = some (true, st')) :
    ∃ st1 gfe,
      addInstructionList cfg { st with register_nodes := [], alias_group_nodes := [] }
        kInvalidNode instructions = some (true, st1) ∧
      accumulateGlobalFeatures (List.replicate cfg.node_tokens.length 0)
        (st1.node_features.drop st.node_types.length) = some gfe ∧
      st' = { st1 with
        global_features := st1.global_features ++ [gfe],
        num_nodes_per_block := st1.num_nodes_per_block ++ [numNodes st1 - numNodes st],
        num_edges_per_block := st1.num_edges_per_block ++ [numEdges st1 - numEdges st] } := by
  simp only [addBasicBlockFromInstructions] at h
  split at h
  · exact absurd h (by simp)
  · exfalso
    split at h <;> simp at h
  · rename_i st1 heq
    split at h
    · exact absurd h (by simp)
    · rename_i gfe heq2
      simp only [Option.some_inj, Prod.mk.injEq] at h
      exact ⟨st1, gfe, heq, heq2, h.2.symm⟩

theorem add_false_state {cfg : BuilderConfig} {st st' : BuilderState}
    {instructions : List Instruction}
    (hlen : st.edge_types.length = st.edge_receivers.length)
    (h : addBasicBlockFromInstructions cfg st instructions = some (false, st')) :
    st'.node_types = st.node_types ∧ st'.node_features = st.node_features ∧
    st'.edge_senders = st.edge_senders ∧ st'.edge_receivers = st.edge_receivers ∧
    st'.edge_types = st.edge_types ∧
    st'.num_nodes_per_block = st.num_nodes_per_block ∧
    st'.num_edges_per_block = st.num_edges_per_block ∧
    st'.global_features = st.global_features := by
  simp only [addBasicBlockFromInstructions] at h
  split at h
  · exact absurd h (by simp)
  · -- the rollback path restores every accumulator
    rename_i st1 heq
    obtain ⟨hG, -⟩ := stepSpec_addInstructionList cfg instructions
      { st with register_nodes := [], alias_group_nodes := [] } kInvalidNode
      false st1 heq
    obtain ⟨⟨dt, df, hldf, hnt, hnf⟩, ⟨ds, dr, de, hlr, hle, hes, her, het⟩,
      hnn, hne, hgf⟩ := hG
    dsimp only at hnt hnf hes her het hnn hne hgf
    rw [hnt, hnf, hes, her, het, hnn, hne, hgf] at h
    rw [rollbackResize_append st.node_types dt,
      rollbackResize_append st.node_features df,
      rollbackResize_append st.edge_senders ds,
      rollbackResize_append st.edge_receivers dr,
      show rollbackResize st.edge_receivers.length (st.edge_types ++ de)
          = some st.edge_types from by
        rw [← hlen]
        exact rollbackResize_append _ _,
      rollbackResize_self st.num_nodes_per_block,
      rollbackResize_self st.num_edges_per_block,
      rollbackResize_self st.global_features] at h
    simp only [Option.some_inj, Prod.mk.injEq] at h
    rw [← h.2]
    exact ⟨rfl, rfl, rfl, rfl, rfl, rfl, rfl, rfl⟩
  · -- the commit path returns true, not false
    exfalso
    split at h
    · exact absurd h (by simp)
    · simp at h

theorem reachableFull_edge_len {cfg : BuilderConfig} {st : BuilderState}
    (h : ReachableFull cfg st) : st.edge_types.length = st.edge_receivers.length := by
  induction h with
  | base => rfl
  | reset_step _ _ => rfl
  | step hR hadd ih =>
      rename_i st0 st1 instrs b
      cases b
      · obtain ⟨_, _, _, hrecv, htyp, _, _, _⟩ := add_false_state ih hadd
        rw [hrecv, htyp, ih]
      · obtain ⟨stm, gfe, hrun, _, hcommit⟩ := add_true_elim hadd
        obtain ⟨hG, -⟩ := stepSpec_addInstructionList cfg instrs
          { st0 with register_nodes := [], alias_group_nodes := [] } kInvalidNode
          true stm hrun
        obtain ⟨-, ⟨ds, dr, de, hlr, hle, hes, her, het⟩, -, -, -⟩ := hG
        dsimp only at hes her het
        subst hcommit
        simp only [het, her]
        simp [ih, hlr, hle]

/-- C1: for every state a builder can be in and every instruction sequence,
if `AddBasicBlockFromInstructions` returns false (e.g. an out-of-vocabulary
mnemonic under the `ReturnError` policy), then after the call every
accumulator array (node_types, node_features, edge_senders, edge_receivers,
edge_types, num_nodes_per_block, num_edges_per_block) and global_features has
exactly the size and content it had before the call. -/
theorem add_false_rolls_back_accumulators (cfg : BuilderConfig)
    {st st' : BuilderState} (instructions : List Instruction)
    (hreach : ReachableFull cfg st)
    (h : addBasicBlockFromInstructions cfg st instructions = some (false, st')) :
    st'.node_types = st.node_types ∧ st'.node_features = st.node_features ∧
    st'.edge_senders = st.edge_senders ∧ st'.edge_receivers = st.edge_receivers ∧
    st'.edge_types = st.edge_types ∧
    st'.num_nodes_per_block = st.num_nodes_per_block ∧
    st'.num_edges_per_block = st.num_edges_per_block ∧
    st'.global_features = st.global_features :=
  add_false_state (reachableFull_edge_len hreach) h

/-- C1 witness: a builder that has committed one NOP block rejects a block
with the out-of-vocabulary mnemonic FOO under the ReturnError policy, and the
rollback leaves all eight accumulators exactly as they were. -/
theorem add_false_rolls_back_accumulators_witness :
    (⟨[NodeType.kInstruction], [4], [], [], [], [1], [0], [[0, 0, 0, 0, 1]], [], []⟩
        : BuilderState).node_types
      = (⟨[NodeType.kInstruction], [4], [], [], [], [1], [0], [[0, 0, 0, 0, 1]], [], []⟩
        : BuilderState).node_types ∧
    (⟨[NodeType.kInstruction], [4], [], [], [], [1], [0], [[0, 0, 0, 0, 1]], [], []⟩
        : BuilderState).node_features
      = (⟨[NodeType.kInstruction], [4], [], [], [], [1], [0], [[0, 0, 0, 0, 1]], [], []⟩
        : BuilderState).node_features ∧
    (⟨[NodeType.kInstruction], [4], [], [], [], [1], [0], [[0, 0, 0, 0, 1]], [], []⟩
        : BuilderState).edge_senders
      = (⟨[NodeType.kInstruction], [4], [], [], [], [1], [0], [[0, 0, 0, 0, 1]], [], []⟩
        : BuilderState).edge_senders ∧
    (⟨[NodeType.kInstruction], [4], [], [], [], [1], [0], [[0, 0, 0, 0, 1]], [], []⟩
        : BuilderState).edge_receivers
      = (⟨[NodeType.kInstruction], [4], [], [], [], [1], [0], [[0, 0, 0, 0, 1]], [], []⟩
        : BuilderState).edge_receivers ∧
    (⟨[NodeType.kInstruction], [4], [], [], [], [1], [0], [[0, 0, 0, 0, 1]], [], []⟩
        : BuilderState).edge_types
      = (⟨[NodeType.kInstruction], [4], [], [], [], [1], [0], [[0, 0, 0, 0, 1]], [], []⟩
        : BuilderState).edge_types ∧
    (⟨[NodeType.kInstruction], [4], [], [], [], [1], [0], [[0, 0, 0, 0, 1]], [], []⟩
        : BuilderState).num_nodes_per_block
      = (⟨[NodeType.kInstruction], [4], [], [], [], [1], [0], [[0, 0, 0, 0, 1]], [], []⟩
        : BuilderState).num_nodes_per_block ∧
    (⟨[NodeType.kInstruction], [4], [], [], [], [1], [0], [[0, 0, 0, 0, 1]], [], []⟩
        : BuilderState).num_edges_per_block
      = (⟨[NodeType.kInstruction], [4], [], [], [], [1], [0], [[0, 0, 0, 0, 1]], [], []⟩
        : BuilderState).num_edges_per_block ∧
    (⟨[NodeType.kInstruction], [4], [], [], [], [1], [0], [[0, 0, 0, 0, 1]], [], []⟩
        : BuilderState).global_features
      = (⟨[NodeType.kInstruction], [4], [], [], [], [1], [0], [[0, 0, 0, 0, 1]], [], []⟩
        : BuilderState).global_features :=
  add_false_rolls_back_accumulators
    ⟨["immediate", "fp_immediate", "address", "memory", "NOP"], 0, 1, 2, 3,
      OutOfVocabularyTokenBehavior.kReturnError⟩
    [⟨"FOO", [], [], [], [], []⟩]
    (ReachableFull.step ReachableFull.base
      (show addBasicBlockFromInstructions _ initialState [⟨"NOP", [], [], [], [], []⟩]
          = some (true, _) by decide))
    (by decide)

theorem reachable_block_inv {cfg : BuilderConfig} {st : BuilderState}
    (h : Reachable cfg st) : BlockInv st := by
  induction h with
  | base rn an =>
      exact ⟨by simp [initialState], rfl, by simp [initialState], rfl, rfl,
        fun e he => absurd he (by simp [initialState]),
        fun e he => absurd he (by simp [initialState])⟩
  | step hR hadd ih =>
      rename_i st0 st1 instrs
      obtain ⟨hs, hnl, hes, hrl, htl, hok⟩ := ih
      obtain ⟨stm, gfe, hrun, hacc, hcommit⟩ := add_true_elim hadd
      obtain ⟨hG, hOkImp⟩ := stepSpec_addInstructionList cfg instrs
        { st0 with register_nodes := [], alias_group_nodes := [] } kInvalidNode
        true stm hrun
      obtain ⟨⟨dt, df, hldf, hnt, hnf⟩, ⟨ds, dr, de, hlr, hle, hesd, herd, hetd⟩,
        hnnm, hnem, -⟩ := hG
      dsimp only at hnt hnf hesd herd hetd hnnm hnem
      have hOkm : EdgesOk stm := hOkImp ⟨hok.1, hok.2⟩
      subst hcommit
      refine ⟨?_, ?_, ?_, ?_, ?_, ?_, ?_⟩
      · simp only [numNodes, numEdges]
        simp only [hnt, hnnm]
        simp [List.sum_append, hs]
      · simp [hnt, hnf, hnl, hldf]
      · simp only [numNodes, numEdges]
        simp only [hesd, hnem]
        simp [List.sum_append, hes]
      · simp [hesd, herd, hrl, hlr]
      · simp [hesd, hetd, htl, hle]
      · exact hOkm.1
      · exact hOkm.2

/-- C2: after every sequence of successful `AddBasicBlockFromInstructions`
calls starting from a fresh or reset builder, the sum of
`num_nodes_per_block` equals the length of `node_types`, which equals the
length of `node_features`; the sum of `num_edges_per_block` equals the common
length of `edge_senders`, `edge_receivers` and `edge_types`; and every
`edge_senders[e]` and `edge_receivers[e]` lies in `[0, len(node_types))`. -/
theorem accumulator_sums_and_edge_ranges (cfg : BuilderConfig) {st : BuilderState}
    (hreach : Reachable cfg st) :
    st.num_nodes_per_block.sum = (st.node_types.length : Int) ∧
    st.node_types.length = st.node_features.length ∧
    st.num_edges_per_block.sum = (st.edge_senders.length : Int) ∧
    st.edge_senders.length = st.edge_receivers.length ∧
    st.edge_senders.length = st.edge_types.length ∧
    (∀ e ∈ st.edge_senders, 0 ≤ e ∧ e < (st.node_types.length : Int)) ∧
    (∀ e ∈ st.edge_receivers, 0 ≤ e ∧ e < (st.node_types.length : Int)) := by
  obtain ⟨hs, hnl, hes, hrl, htl, hok⟩ := reachable_block_inv hreach
  exact ⟨hs, hnl, hes, hrl.symm, htl.symm, hok.1, hok.2⟩

/-- C2 witness: the invariant holds for the concrete builder state reached by
adding one NOP block to a fresh builder. -/
theorem accumulator_sums_and_edge_ranges_witness :
    (⟨[NodeType.kInstruction], [4], [], [], [], [1], [0], [[0, 0, 0, 0, 1]], [], []⟩
        : BuilderState).num_nodes_per_block.sum
      = ((⟨[NodeType.kInstruction], [4], [], [], [], [1], [0], [[0, 0, 0, 0, 1]], [], []⟩
        : BuilderState).node_types.length : Int) ∧
    (⟨[NodeType.kInstruction], [4], [], [], [], [1], [0], [[0, 0, 0, 0, 1]], [], []⟩
        : BuilderState).node_types.length
      = (⟨[NodeType.kInstruction], [4], [], [], [], [1], [0], [[0, 0, 0, 0, 1]], [], []⟩
        : BuilderState).node_features.length ∧
    (⟨[NodeType.kInstruction], [4], [], [], [], [1], [0], [[0, 0, 0, 0, 1]], [], []⟩
        : BuilderState).num_edges_per_block.sum
      = ((⟨[NodeType.kInstruction], [4], [], [], [], [1], [0], [[0, 0, 0, 0, 1]], [], []⟩
        : BuilderState).edge_senders.length : Int) ∧
    (⟨[NodeType.kInstruction], [4], [], [], [], [1], [0], [[0, 0, 0, 0, 1]], [], []⟩
        : BuilderState).edge_senders.length
      = (⟨[NodeType.kInstruction], [4], [], [], [], [1], [0], [[0, 0, 0, 0, 1]], [], []⟩
        : BuilderState).edge_receivers.length ∧
    (⟨[NodeType.kInstruction], [4], [], [], [], [1], [0], [[0, 0, 0, 0, 1]], [], []⟩
        : BuilderState).edge_senders.length
      = (⟨[NodeType.kInstruction], [4], [], [], [], [1], [0], [[0, 0, 0, 0, 1]], [], []⟩
        : BuilderState).edge_types.length ∧
    (∀ e ∈ (⟨[NodeType.kInstruction], [4], [], [], [], [1], [0], [[0, 0, 0, 0, 1]], [], []⟩
        : BuilderState).edge_senders, 0 ≤ e ∧
      e < ((⟨[NodeType.kInstruction], [4], [], [], [], [1], [0], [[0, 0, 0, 0, 1]], [], []⟩
        : BuilderState).node_types.length : Int)) ∧
    (∀ e ∈ (⟨[NodeType.kInstruction], [4], [], [], [], [1], [0], [[0, 0, 0, 0, 1]], [], []⟩
        : BuilderState).edge_receivers, 0 ≤ e ∧
      e < ((⟨[NodeType.kInstruction], [4], [], [], [], [1], [0], [[0, 0, 0, 0, 1]], [], []⟩
        : BuilderState).node_types.length : Int)) :=
  accumulator_sums_and_edge_ranges
    ⟨["immediate", "fp_immediate", "address", "memory", "NOP"], 0, 1, 2, 3,
      OutOfVocabularyTokenBehavior.kReturnError⟩
    (Reachable.step (Reachable.base [] [])
      (show addBasicBlockFromInstructions _ initialState [⟨"NOP", [], [], [], [], []⟩]
          = some (true, _) by decide))

theorem incAt_spec : ∀ (gf : List Int) (t : Nat) (gf' : List Int),
    incAt gf t = some gf' →
    gf'.length = gf.length ∧ gf'.sum = gf.sum + 1 ∧
    ∀ i : Nat, gf'.get? i
      = if i = t then (gf.get? i).map (· + 1) else gf.get? i
  | [], t, gf', h => absurd h (by simp [incAt])
  | x :: xs, 0, gf', h => by
      simp only [incAt, Option.some_inj] at h
      subst h
      refine ⟨by simp, by simp [add_assoc, add_comm, add_left_comm], fun i => ?_⟩
      cases i <;> simp
  | x :: xs, t + 1, gf', h => by
      simp only [incAt] at h
      rcases hys : incAt xs t with _ | ys
      · rw [hys] at h
        exact absurd h (by simp)
      · rw [hys] at h
        simp only [Option.some_inj] at h
        subst h
        obtain ⟨hl, hsum, hget⟩ := incAt_spec xs t ys hys
        refine ⟨by simp [hl], by simp [hsum, add_assoc], fun i => ?_⟩
        cases i with
        | zero => simp
        | succ j =>
            simp only [List.get?_cons_succ]
            rw [hget j]
            by_cases hj : j = t
            · simp [hj]
            · simp [hj]

theorem accumulateGlobalFeatures_spec : ∀ (ts : List Nat) (gf gf' : List Int),
    accumulateGlobalFeatures gf ts = some gf' →
    gf'.length = gf.length ∧ gf'.sum = gf.sum + ts.length ∧
    ∀ i : Nat, gf'.get? i = (gf.get? i).map (· + (ts.count i : Int))
  | [], gf, gf', h => by
      simp only [accumulateGlobalFeatures, Option.some_inj] at h
      subst h
      refine ⟨rfl, by simp, fun i => ?_⟩
      rcases gf.get? i with _ | x <;> simp
  | t :: ts, gf, gf', h => by
      simp only [accumulateGlobalFeatures] at h
      rcases hys : incAt gf t with _ | g1
      · rw [hys] at h
        exact absurd h (by simp)
      · rw [hys] at h
        obtain ⟨hl1, hsum1, hget1⟩ := incAt_spec gf t g1 hys
        obtain ⟨hl2, hsum2, hget2⟩ := accumulateGlobalFeatures_spec ts g1 gf' h
        refine ⟨hl2.trans hl1, by rw [hsum2, hsum1, List.length_cons]; push_cast; ring, fun i => ?_⟩
        rw [hget2 i, hget1 i]
        by_cases hi : i = t
        · subst hi
          rcases gf.get? i with _ | x
          · simp
          · simp [List.count_cons, add_assoc, add_comm, add_left_comm]
        · have hcount : (t :: ts).count i = ts.count i := by
            simp [List.count_cons, Ne.symm hi]
          rw [if_neg hi, hcount]

/-- C6: after every successful `AddBasicBlockFromInstructions` call, the
appended `global_features` vector has length equal to the vocabulary size,
its entry at position `t` counts the nodes added for the block whose
`node_features` value is `t`, and its entries sum to the block's
`num_nodes_per_block` entry. -/
theorem add_true_appends_histogram (cfg : BuilderConfig) {st st' : BuilderState}
    (instructions : List Instruction) (hreach : Reachable cfg st)
    (h : addBasicBlockFromInstructions cfg st instructions = some (true, st')) :
    ∃ gfe k,
      st'.global_features = st.global_features ++ [gfe] ∧
      st'.num_nodes_per_block = st.num_nodes_per_block ++ [k] ∧
      gfe.length = cfg.node_tokens.length ∧
      (∀ t : Nat, t < cfg.node_tokens.length →
        gfe.get? t
          = some ((st'.node_features.drop st.node_features.length).count t : Int)) ∧
      gfe.sum = k := by
  obtain ⟨-, hnl, -, -, -, -⟩ := reachable_block_inv hreach
  obtain ⟨stm, gfe, hrun, hacc, hcommit⟩ := add_true_elim h
  obtain ⟨hG, -⟩ := stepSpec_addInstructionList cfg instructions
    { st with register_nodes := [], alias_group_nodes := [] } kInvalidNode
    true stm hrun
  obtain ⟨⟨dt, df, hldf, hnt, hnf⟩, -, hnnm, -, hgfm⟩ := hG
  dsimp only at hnt hnf hnnm hgfm
  have hdropf : stm.node_features.drop st.node_features.length = df := by
    rw [hnf]
    exact List.drop_left _ _
  have hdrop : stm.node_features.drop st.node_types.length = df := by
    rw [hnl]
    exact hdropf
  rw [hdrop] at hacc
  obtain ⟨hlen, hsum, hget⟩ := accumulateGlobalFeatures_spec df _ gfe hacc
  subst hcommit
  refine ⟨gfe, numNodes stm - numNodes st, by simp [hgfm], by simp [hnnm], ?_, ?_, ?_⟩
  · rw [hlen]
    simp
  · intro t ht
    have hrep : (List.replicate cfg.node_tokens.length (0 : Int)).get? t = some 0 := by
      rw [List.get?_eq_get (by simpa using ht)]
      simp
    show gfe.get? t = some ((stm.node_features.drop st.node_features.length).count t : Int)
    rw [hdropf, hget t, hrep]
    simp
  · rw [hsum]
    simp only [numNodes, hnt]
    simp [hldf]

/-- C6 witness: the histogram property instantiated at a fresh builder and
one NOP block (the appended histogram is [0,0,0,0,1] and the block has one
node). -/
theorem add_true_appends_histogram_witness :
    ∃ gfe k,
      (⟨[NodeType.kInstruction], [4], [], [], [], [1], [0], [[0, 0, 0, 0, 1]], [], []⟩
          : BuilderState).global_features = initialState.global_features ++ [gfe] ∧
      (⟨[NodeType.kInstruction], [4], [], [], [], [1], [0], [[0, 0, 0, 0, 1]], [], []⟩
          : BuilderState).num_nodes_per_block
        = initialState.num_nodes_per_block ++ [k] ∧
      gfe.length = 5 ∧
      (∀ t : Nat, t < 5 →
        gfe.get? t
          = some (((⟨[NodeType.kInstruction], [4], [], [], [], [1], [0],
              [[0, 0, 0, 0, 1]], [], []⟩
              : BuilderState).node_features.drop
                initialState.node_features.length).count t : Int)) ∧
      gfe.sum = k :=
  add_true_appends_histogram
    ⟨["immediate", "fp_immediate", "address", "memory", "NOP"], 0, 1, 2, 3,
      OutOfVocabularyTokenBehavior.kReturnError⟩
    [⟨"NOP", [], [], [], [], []⟩] (Reachable.base [] []) (by decide)

/-! ### DeltaBlockIndex lemmas (C5) -/

/-- C5 counterexample: the empty instruction list is a successful add (the
loop body never runs, a zero-size block is committed), and on the resulting
reachable state `DeltaBlockIndex` aborts on its final `ABSL_CHECK_EQ(block,
num_graphs() - 1)` instead of returning the per-instruction block indices. -/
theorem deltaBlockIndex_aborts_after_empty_block :
    Reachable ⟨["immediate", "fp_immediate", "address", "memory"], 0, 1, 2, 3,
        OutOfVocabularyTokenBehavior.kReturnError⟩
      (⟨[], [], [], [], [], [0], [0], [[0, 0, 0, 0]], [], []⟩ : BuilderState) ∧
    deltaBlockIndex
      (⟨[], [], [], [], [], [0], [0], [[0, 0, 0, 0]], [], []⟩ : BuilderState) = none :=
  ⟨Reachable.step (Reachable.base [] [])
    (show addBasicBlockFromInstructions _ initialState [] = some (true, _) by decide),
   by decide⟩

theorem addInstructionList_head {cfg : BuilderConfig} {st st1 : BuilderState}
    {prev : Int} {instruction : Instruction} {rest : List Instruction}
    (h : addInstructionList cfg st prev (instruction :: rest) = some (true, st1)) :
    ∃ d, st1.node_types = st.node_types ++ (NodeType.kInstruction :: d) := by
  rw [addInstructionList] at h
  by_cases hinv :
      (addNodeTok cfg st NodeType.kInstruction instruction.mnemonic).1 = kInvalidNode
  · rw [if_pos hinv] at h
    simp at h
  · rw [if_neg hinv] at h
    obtain ⟨hG, -⟩ := stepSpec_bind
      (stepSpec_addPrefixList cfg _ instruction.prefixes _)
      (fun st2 _ => stepSpec_bind (stepSpec_structural_edge st2 prev _)
        (fun st3 _ => stepSpec_bind (stepSpec_addInputOperandList cfg _ _ _)
          (fun st4 _ => stepSpec_bind (stepSpec_addInputOperandList cfg _ _ _)
            (fun st5 _ => stepSpec_bind (stepSpec_addOutputOperandList cfg _ _ _)
              (fun st6 _ => stepSpec_bind (stepSpec_addOutputOperandList cfg _ _ _)
                (fun st7 _ => stepSpec_addInstructionList cfg rest st7 _))))))
      true st1 h
    obtain ⟨⟨dt, df, hldf, hnt, hnf⟩, -, -, -, -⟩ := hG
    rcases addNodeTok_eq cfg st NodeType.kInstruction instruction.mnemonic
      with hc | ⟨ti, hc⟩
    · rw [hc] at hinv
      exact absurd rfl hinv
    · rw [hc] at hnt
      rw [addNode_eq] at hnt
      dsimp only at hnt
      exact ⟨dt, by rw [hnt, List.append_assoc]; rfl⟩

theorem reachableNE_segstructure {cfg : BuilderConfig} {st : BuilderState}
    (h : ReachableNE cfg st) : SegStructure st := by
  induction h with
  | base rn an => exact ⟨[], by simp [initialState], by simp [initialState], by simp⟩
  | step hR hne hadd ih =>
      rename_i st0 st1 instrs
      obtain ⟨segs, hjoin, hnpb, hheads⟩ := ih
      obtain ⟨stm, gfe, hrun, hacc, hcommit⟩ := add_true_elim hadd
      obtain ⟨hG, -⟩ := stepSpec_addInstructionList cfg instrs
        { st0 with register_nodes := [], alias_group_nodes := [] } kInvalidNode
        true stm hrun
      obtain ⟨⟨dt, df, hldf, hnt, hnf⟩, -, hnnm, -, -⟩ := hG
      dsimp only at hnt hnf hnnm
      rcases instrs with _ | ⟨instruction, rest⟩
      · exact absurd rfl hne
      obtain ⟨d, hd⟩ := addInstructionList_head hrun
      dsimp only at hd
      subst hcommit
      refine ⟨segs ++ [NodeType.kInstruction :: d], ?_, ?_, ?_⟩
      · simp only [List.flatten_append, List.flatten, List.append_nil]
        rw [hd, hjoin]
      · have hk : numNodes stm - numNodes st0
            = ((NodeType.kInstruction :: d).length : Int) := by
          simp only [numNodes, hd]
          simp
        simp only [List.map_append, List.map]
        rw [hnnm, hnpb, hk]
      · intro seg hseg
        rcases List.mem_append.mp hseg with h1 | h2
        · exact hheads seg h1
        · rw [List.mem_singleton.mp h2]
          rfl

theorem advanceBlockAux_stay (npb : List Int) (node : Int) (fuel : Nat)
    (block block_end : Int)
    (h : ¬(block_end ≤ node ∧ block < (npb.length : Int))) :
    advanceBlockAux npb node fuel block block_end = some (block, block_end) := by
  cases fuel with
  | zero => simp only [advanceBlockAux, if_neg h]
  | succ f => simp only [advanceBlockAux, if_neg h]

theorem advanceBlock_stay (npb : List Int) (node block block_end : Int)
    (h : node < block_end) :
    advanceBlock npb node block block_end = some (block, block_end) := by
  unfold advanceBlock
  exact advanceBlockAux_stay npb node _ block block_end (by omega)

theorem advanceBlock_enter (npb : List Int) (n : Int) (k : Nat) (len : Int)
    (hget : npb.get? k = some len) (hlen : 1 ≤ len) :
    advanceBlock npb n ((k : Int) - 1) n = some ((k : Int), n + len) := by
  have hk : k < npb.length := by
    by_contra hc
    rw [List.get?_eq_none.mpr (Nat.le_of_not_lt hc)] at hget
    exact absurd hget (by simp)
  unfold advanceBlock
  rw [advanceBlockAux.eq_def]
  dsimp only
  rw [if_pos ⟨le_refl n, by push_cast; omega⟩]
  have hb1 : (k : Int) - 1 + 1 = (k : Int) := by ring
  rw [hb1, Int.toNat_natCast, hget]
  dsimp only
  exact advanceBlockAux_stay npb n _ _ _ (by omega)

theorem get?_of_drop_cons {l : List Int} {k : Nat} {x : Int} {xs : List Int}
    (h : l.drop k = x :: xs) : l.get? k = some x := by
  have hk : k < l.length := by
    by_contra hc
    rw [List.drop_eq_nil_of_le (Nat.le_of_not_lt hc)] at h
    exact absurd h (by simp)
  rw [List.drop_eq_getElem_cons hk] at h
  simp only [List.cons.injEq] at h
  obtain ⟨hx, -⟩ := h
  rw [List.get?_eq_getElem?, List.getElem?_eq_getElem hk, hx]

theorem dbiGo_inner (npb : List Int) (k E : Int) (t : List NodeType) :
    ∀ (rest_join : List NodeType) (n : Int) (tail : List Int) (bf ef : Int),
      E = n + t.length →
      dbiGo npb rest_join E k E = some (tail, bf, ef) →
      dbiGo npb (t ++ rest_join) n k E =
        some (List.replicate (t.count NodeType.kInstruction) k ++ tail, bf, ef) := by
  induction t with
  | nil =>
      intro rest_join n tail bf ef hE hres
      have hEn : E = n := by simpa using hE
      subst hEn
      simpa using hres
  | cons nt t' ih =>
      intro rest_join n tail bf ef hE hres
      simp only [List.length_cons] at hE
      have hlt : n < E := by push_cast at hE; omega
      have hrec := ih rest_join (n + 1) tail bf ef (by push_cast at hE ⊢; omega) hres
      simp only [List.cons_append, dbiGo, List.append_eq]
      by_cases hnt : nt = NodeType.kInstruction
      · rw [if_pos hnt, advanceBlock_stay npb n k E hlt]
        dsimp only
        rw [hrec]
        dsimp only
        rw [hnt]
        simp [List.count_cons, List.replicate_succ]
      · rw [if_neg hnt, hrec]
        simp [List.count_cons, hnt]

theorem dbiGo_segs (npb : List Int) (segs : List (List NodeType)) :
    ∀ (k : Nat) (n : Int),
      npb.drop k = segs.map (fun s => (s.length : Int)) →
      (∀ s ∈ segs, s.head? = some NodeType.kInstruction) →
      dbiGo npb segs.flatten n ((k : Int) - 1) n =
        some (specDBI (k : Int) segs, (k : Int) - 1 + segs.length,
          n + segs.flatten.length) := by
  induction segs with
  | nil =>
      intro k n hdrop hheads
      simp [dbiGo, specDBI]
  | cons seg rest ih =>
      intro k n hdrop hheads
      simp only [List.map_cons] at hdrop
      have hget : npb.get? k = some (seg.length : Int) := get?_of_drop_cons hdrop
      obtain ⟨d, hseg⟩ : ∃ d, seg = NodeType.kInstruction :: d := by
        have hh := hheads seg (List.mem_cons_self seg rest)
        cases seg with
        | nil => simp at hh
        | cons a d =>
            simp only [List.head?_cons, Option.some.injEq] at hh
            exact ⟨d, by rw [hh]⟩
      have hlen1 : (1 : Int) ≤ (seg.length : Int) := by
        rw [hseg]
        simp only [List.length_cons]
        push_cast
        omega
      have hdrop' : npb.drop (k + 1) = rest.map (fun s => (s.length : Int)) := by
        have hdd : npb.drop (k + 1) = (npb.drop k).drop 1 :=
          (List.drop_drop 1 k npb).symm
        rw [hdd, hdrop]
        simp
      have hheads' : ∀ s ∈ rest, s.head? = some NodeType.kInstruction :=
        fun s hs => hheads s (List.mem_cons_of_mem seg hs)
      have hIH := ih (k + 1) (n + (seg.length : Int)) hdrop' hheads'
      have hc1 : ((k + 1 : Nat) : Int) - 1 = (k : Int) := by push_cast; ring
      have hc2 : ((k + 1 : Nat) : Int) = (k : Int) + 1 := by push_cast; ring
      rw [hc1, hc2] at hIH
      have hE : n + (seg.length : Int) = (n + 1) + (d.length : Int) := by
        rw [hseg]
        push_cast [List.length_cons]
        ring
      have hinner := dbiGo_inner npb (k : Int) (n + (seg.length : Int)) d
        rest.flatten (n + 1) (specDBI ((k : Int) + 1) rest)
        ((k : Int) + 1 - 1 + (rest.length : Int))
        ((n + (seg.length : Int)) + (rest.flatten.length : Int)) hE
        (by rw [hIH]; ring_nf)
      simp only [List.flatten_cons]
      rw [hseg]
      simp only [List.cons_append, dbiGo, if_pos, List.append_eq]
      rw [advanceBlock_enter npb n k (seg.length : Int) hget hlen1]
      dsimp only
      rw [hinner]
      dsimp only
      simp only [specDBI, hseg, List.count_cons, List.length_cons,
        List.length_append, Option.some.injEq, Prod.mk.injEq]
      refine ⟨?_, by push_cast; ring, by push_cast; ring⟩
      simp [List.replicate_succ]

theorem specDBI_length (segs : List (List NodeType)) :
    ∀ g0 : Int,
      (specDBI g0 segs).length = segs.flatten.count NodeType.kInstruction := by
  induction segs with
  | nil => intro g0; simp [specDBI]
  | cons seg rest ih =>
      intro g0
      simp [specDBI, List.count_append, ih]

theorem specDBI_lb (segs : List (List NodeType)) :
    ∀ (g0 : Int), ∀ x ∈ specDBI g0 segs, g0 ≤ x := by
  induction segs with
  | nil => intro g0 x hx; simp [specDBI] at hx
  | cons seg rest ih =>
      intro g0 x hx
      rw [specDBI] at hx
      rcases List.mem_append.mp hx with h1 | h2
      · rw [List.eq_of_mem_replicate h1]
      · have := ih (g0 + 1) x h2
        omega

theorem specDBI_chain (segs : List (List NodeType)) :
    ∀ g0 : Int, List.Chain' (· ≤ ·) (specDBI g0 segs) := by
  induction segs with
  | nil => intro g0; simp [specDBI]
  | cons seg rest ih =>
      intro g0
      rw [specDBI, List.chain'_append]
      refine ⟨List.chain'_replicate_of_rel _ (le_refl g0), ih (g0 + 1), ?_⟩
      intro x hx y hy
      obtain ⟨hne, hxl⟩ := List.mem_getLast?_eq_getLast hx
      have hxm : x ∈ List.replicate (seg.count NodeType.kInstruction) g0 := by
        rw [hxl]; exact List.getLast_mem hne
      rw [List.eq_of_mem_replicate hxm]
      have hyb := specDBI_lb rest (g0 + 1) y (List.mem_of_mem_head? hy)
      omega

theorem count_head_pos {seg : List NodeType}
    (h : seg.head? = some NodeType.kInstruction) :
    1 ≤ seg.count NodeType.kInstruction := by
  cases seg with
  | nil => simp at h
  | cons a d =>
      simp only [List.head?_cons, Option.some.injEq] at h
      simp [List.count_cons, h]

theorem specDBI_getLast (segs : List (List NodeType)) :
    ∀ g0 : Int, (∀ s ∈ segs, s.head? = some NodeType.kInstruction) → segs ≠ [] →
      (specDBI g0 segs).getLast? = some (g0 + segs.length - 1) := by
  induction segs with
  | nil => intro g0 _ hne; exact absurd rfl hne
  | cons seg rest ih =>
      intro g0 hheads _
      have hcp := count_head_pos (hheads seg (List.mem_cons_self seg rest))
      rw [specDBI]
      rcases eq_or_ne rest [] with hr | hr
      · subst hr
        rw [specDBI, List.append_nil]
        have hne : List.replicate (seg.count NodeType.kInstruction) g0 ≠ [] := by
          intro hnil
          have := congrArg List.length hnil
          simp at this
          omega
        rw [List.getLast?_eq_getLast_of_ne_nil hne]
        rw [List.eq_of_mem_replicate (List.getLast_mem hne)]
        simp
      · have hrest : specDBI (g0 + 1) rest ≠ [] := by
          rcases rest with _ | ⟨s2, rest'⟩
          · exact absurd rfl hr
          have hcp2 := count_head_pos (hheads s2 (by simp))
          rw [specDBI]
          intro hnil
          rcases List.append_eq_nil.mp hnil with ⟨h1, -⟩
          have := congrArg List.length h1
          simp at this
          omega
        rw [List.getLast?_append_of_ne_nil _ hrest,
          ih (g0 + 1) (fun s hs => hheads s (List.mem_cons_of_mem seg hs)) hr]
        congr 1
        push_cast [List.length_cons]
        ring

/-- C5 (amended): for every builder state reachable by successful adds of
NON-EMPTY instruction sequences, `DeltaBlockIndex()` succeeds and returns one
entry per instruction node in global index order — the zero-based index of the
block that node belongs to (`specDBI` over the per-block segment decomposition
of `node_types`); the returned sequence is monotonically non-decreasing, its
length equals the total number of instruction nodes, and as soon as at least
one block was added its last value equals `num_graphs() - 1`. The restriction
to non-empty instruction sequences is necessary: after a successful add of an
empty sequence `DeltaBlockIndex` aborts (see the counterexample theorem). -/
theorem deltaBlockIndex_spec (cfg : BuilderConfig) {st : BuilderState}
    (h : ReachableNE cfg st) :
    ∃ (l : List Int) (segs : List (List NodeType)),
      deltaBlockIndex st = some l ∧
      st.node_types = segs.flatten ∧
      st.num_nodes_per_block = segs.map (fun seg => (seg.length : Int)) ∧
      l = specDBI 0 segs ∧
      List.Chain' (· ≤ ·) l ∧
      l.length = st.node_types.count NodeType.kInstruction ∧
      (st.num_nodes_per_block ≠ [] →
        l.getLast? = some ((numGraphs st : Int) - 1)) := by
  obtain ⟨segs, hjoin, hnpb, hheads⟩ := reachableNE_segstructure h
  have hg : numGraphs st = segs.length := by
    rw [numGraphs, hnpb, List.length_map]
  refine ⟨specDBI 0 segs, segs, ?_, hjoin, hnpb, rfl, specDBI_chain segs 0,
    by rw [hjoin]; exact specDBI_length segs 0, ?_⟩
  · have hrun := dbiGo_segs st.num_nodes_per_block segs 0 0
      (by rw [List.drop_zero]; exact hnpb) hheads
    simp only [Nat.cast_zero, zero_sub, zero_add] at hrun
    rw [deltaBlockIndex, hjoin, hrun]
    dsimp only
    rw [if_pos ⟨by rw [hg]; push_cast; ring, by rw [numNodes, hjoin],
      specDBI_length segs 0⟩]
  · intro hne
    have hsne : segs ≠ [] := by
      intro hc
      rw [hc] at hnpb
      simp at hnpb
      exact hne hnpb
    rw [specDBI_getLast segs 0 hheads hsne, hg]
    norm_num

/-- C5 witness: the amended DeltaBlockIndex theorem instantiated at the state
of a builder that added one single-instruction (NOP) basic block. -/
theorem deltaBlockIndex_spec_witness :
    ∃ (l : List Int) (segs : List (List NodeType)),
      deltaBlockIndex
          (⟨[NodeType.kInstruction], [4], [], [], [], [1], [0], [[0, 0, 0, 0, 1]],
            [], []⟩ : BuilderState) = some l ∧
      (⟨[NodeType.kInstruction], [4], [], [], [], [1], [0], [[0, 0, 0, 0, 1]],
        [], []⟩ : BuilderState).node_types = segs.flatten ∧
      (⟨[NodeType.kInstruction], [4], [], [], [], [1], [0], [[0, 0, 0, 0, 1]],
        [], []⟩ : BuilderState).num_nodes_per_block
        = segs.map (fun seg => (seg.length : Int)) ∧
      l = specDBI 0 segs ∧
      List.Chain' (· ≤ ·) l ∧
      l.length
        = (⟨[NodeType.kInstruction], [4], [], [], [], [1], [0], [[0, 0, 0, 0, 1]],
            [], []⟩ : BuilderState).node_types.count NodeType.kInstruction ∧
      ((⟨[NodeType.kInstruction], [4], [], [], [], [1], [0], [[0, 0, 0, 0, 1]],
          [], []⟩ : BuilderState).num_nodes_per_block ≠ [] →
        l.getLast?
          = some ((numGraphs
              (⟨[NodeType.kInstruction], [4], [], [], [], [1], [0],
                [[0, 0, 0, 0, 1]], [], []⟩ : BuilderState) : Int) - 1)) :=
  deltaBlockIndex_spec
    ⟨["immediate", "fp_immediate", "address", "memory", "NOP"], 0, 1, 2, 3,
      OutOfVocabularyTokenBehavior.kReturnError⟩
    (ReachableNE.step (ReachableNE.base [] [])
      (show ([⟨"NOP", [], [], [], [], []⟩] : List Instruction) ≠ [] by decide)
      (show addBasicBlockFromInstructions _ _ [⟨"NOP", [], [], [], [], []⟩]
          = some (true, _) by decide))

end Gematria
